import Mathlib

/-!
Verification of the BSL-PSD skyline search engine
(`src/algorithms/bsl_psd.rs`, `src/models/*.rs`) against its
natural-language specification.

Shallow embedding conventions:
* Rust `HashMap` fields are embedded extensionally: `Store.products` and
  `Store.inventory` become total functions (`get_inventory_level` defaults to
  `0`, `get_product_cost` to `none`), and the catalogue carries the list of
  store ids (`storeIds`, the key set of the `stores` map) next to the lookup
  function.  Claims that depend on iteration order do not exist; where the
  Rust code iterates a map we iterate the corresponding list.
* `f64` values are embedded as exact rationals; `+∞` (produced by
  `unwrap_or(f64::INFINITY)` on missing travel-matrix entries) is `⊤` in
  `WithTop ℚ`.  The dedicated NaN claims use a separate four-point `F64`
  model mirroring IEEE `partial_cmp`.
* `Location.distance_to` is Euclidean (`sqrt`), which is irrational; the
  embedding abstracts it as the catalogue's `dist : Loc → Loc → ℚ` parameter.
  None of the verified claims depends on the metric's concrete values, only
  on the code's control flow around it.
* Rust's `sort_by(partial_cmp.unwrap_or(Equal))` on NaN-free data is a
  stable sort by the projection; it is embedded as `List.insertionSort`
  (stable, same sorted-by-projection result).
* The two unbounded `while` loops (the Dijkstra of
  `find_min_time_route_dijkstra` and the best-first loop of
  `solve_with_debug`) terminate in the source because the state space is
  finite; the embedding makes each loop a fuel-indexed step function and the
  theorems quantify over all fuels.
-/

/-! ### Base types (`src/models/mod.rs`) -/

abbrev StoreId := ℕ
abbrev ProductId := ℕ

/-- Planar point, `src/models/location.rs`. Coordinates are only consumed by
`distance_to`, which the embedding abstracts (see header). -/
abbrev Loc := ℚ × ℚ

/-- Embeds `src/models/store.rs`: a store with product prices and inventory.
`products p = some c` ⟺ the store's `products` map has key `p` with cost `c`
(`has_product` / `get_product_cost`); `inventory p` is
`get_inventory_level` (map lookup with default 0). -/
structure Store where
  id : StoreId
  location : Loc
  products : ProductId → Option ℚ
  inventory : ProductId → ℕ

/-- Embeds `src/models/shopping_list.rs`: map of product ids to required
quantities, embedded as its entry list. -/
structure ShoppingList where
  items : List (ProductId × ℕ)
  priority : ℕ := 0

/-- The BSL-PSD solver state after `precompute_data`
(`src/algorithms/bsl_psd.rs`).  `storeIds` is the key set of the `stores`
map; `store` is map lookup; `travel = none` models a missing
`travel_times` entry (treated by the code as `+∞`); `dist` is
`Location.distance_to`. -/
structure BSLPSD where
  storeIds : List StoreId
  store : StoreId → Store
  travel : StoreId → StoreId → Option ℚ
  dist : Loc → Loc → ℚ

/-- The quantity of product `p` the code can see at a store: every consumer
guards `get_inventory_level` behind `has_product`, so a store whose
`products` map lacks `p` contributes 0. -/
def effInv (st : Store) (p : ProductId) : ℕ :=
  if (st.products p).isSome then st.inventory p else 0

/-! ### The IEEE-comparison model (`F64Wrapper`, queue orderings)

`F64Wrapper` (bsl_psd.rs lines 17–54) and the `Ord` instances of
`QueueState` and `RouteCandidate` (route.rs lines 56–71) turn `f64`'s
partial order into a total one by `partial_cmp(..).unwrap_or(Equal)`.
`F64` models an `f64` for exactly this purpose: NaN, −∞, finite, +∞. -/

inductive F64 where
  | nan
  | negInf
  | fin (q : ℚ)
  | posInf
deriving DecidableEq

/-- IEEE-754 `f64::partial_cmp`: `none` iff either operand is NaN. -/
def fcmp : F64 → F64 → Option Ordering
  | .nan, _ => none
  | _, .nan => none
  | .negInf, .negInf => some .eq
  | .negInf, _ => some .lt
  | _, .negInf => some .gt
  | .posInf, .posInf => some .eq
  | _, .posInf => some .lt
  | .posInf, _ => some .gt
  | .fin a, .fin b => some (compare a b)

/-- Embeds `F64Wrapper::cmp`: `partial_cmp(other).unwrap_or(Equal)`. -/
def f64WrapperCmp (a b : F64) : Ordering :=
  (fcmp a b).getD .eq

/-- Residual-demand vector carried by the Dijkstra states. -/
abbrev RemList := List (ProductId × ℕ)

/-- Embeds `QueueState` (bsl_psd.rs lines 34–40) with its NaN-capable distance. -/
structure QueueStateM where
  distance : F64
  store_id : StoreId
  remaining_items : RemList

/-- Embeds `QueueState::cmp`: reversed wrapper comparison for min-heap semantics. -/
def queueStateCmp (a b : QueueStateM) : Ordering :=
  f64WrapperCmp b.distance a.distance

/-- Embeds `RouteCandidate` (route.rs) with its NaN-capable shopping time, used
only for the comparison model. -/
structure RouteCandidateM where
  stores : List StoreId
  shopping_time : F64

/-- Embeds `RouteCandidate::cmp`: reversed `partial_cmp` on times, `unwrap_or(Equal)`. -/
def routeCandidateCmp (a b : RouteCandidateM) : Ordering :=
  (fcmp b.shopping_time a.shopping_time).getD .eq

/-! ### Cost optimizer (`can_fulfill_shopping_list`, `calculate_shopping_cost`) -/

/-- One pass of `can_fulfill_shopping_list`'s inner loop: at a store, each
still-needed product is reduced by `min(available, remaining)`; the
`has_product` guard is absorbed into `effInv`. -/
def deductAtStore (st : Store) (rem : RemList) : RemList :=
  rem.map (fun e => (e.1, e.2 - min (effInv st e.1) e.2))

/-- Embeds `can_fulfill_shopping_list` (bsl_psd.rs lines 440–457): walk the route
deducting inventory, then check all remaining quantities are zero. -/
def can_fulfill_shopping_list (B : BSLPSD) (route : List StoreId) (L : ShoppingList) : Bool :=
  (route.foldl (fun rem s => deductAtStore (B.store s) rem) L.items).all (fun e => e.2 = 0)

/-- The option tuple `(cost, available_qty)` a store contributes for a
product: present iff `has_product` and inventory positive.  (The source's
`get_product_cost(..).unwrap_or(INFINITY)` default is unreachable here
because the tuple is only built when `has_product` holds.) -/
def storeOption (st : Store) (p : ProductId) : Option (ℚ × ℕ) :=
  match st.products p with
  | some c => if 0 < st.inventory p then some (c, st.inventory p) else none
  | none => none

/-- Embeds `product_options` of `calculate_shopping_cost`: the option tuples
gathered walking the route in order (one per store occurrence). -/
def routeOptions (B : BSLPSD) (route : List StoreId) (p : ProductId) : List (ℚ × ℕ) :=
  route.filterMap (fun s => storeOption (B.store s) p)

/-- Comparison used by every `sort_by` on option tuples: ascending price. -/
def priceLE (a b : ℚ × ℕ) : Prop := a.1 ≤ b.1

instance : DecidableRel priceLE := fun a b => inferInstanceAs (Decidable (a.1 ≤ b.1))

instance : IsTotal (ℚ × ℕ) priceLE := ⟨fun a b => le_total a.1 b.1⟩

instance : IsTrans (ℚ × ℕ) priceLE := ⟨fun _ _ _ h h' => le_trans h h'⟩

/-- The greedy cheapest-first fill: for each option in order buy
`min(available, remaining)`; returns (cost bought, remaining units). -/
def fillGreedy : ℕ → List (ℚ × ℕ) → ℚ × ℕ
  | rem, [] => (0, rem)
  | rem, o :: rest =>
    let buy := min o.2 rem
    let r := fillGreedy (rem - buy) rest
    (o.1 * buy + r.1, r.2)

/-- The per-product greedy purchase of `calculate_shopping_cost`:
options sorted by ascending price, then filled greedily. -/
def productFill (B : BSLPSD) (route : List StoreId) (p : ProductId) (q : ℕ) : ℚ × ℕ :=
  fillGreedy q (List.insertionSort priceLE (routeOptions B route p))

/-- The allocation loop of `calculate_shopping_cost`: accumulate the greedy
cost per product, failing (`none` = the function's `+∞` return) if a
product cannot be fully sourced. -/
def routeCostAux (B : BSLPSD) (route : List StoreId) : List (ProductId × ℕ) → Option ℚ → Option ℚ
  | [], acc => acc
  | e :: rest, acc =>
    routeCostAux B route rest
      (match acc with
       | none => none
       | some c =>
         let r := productFill B route e.1 e.2
         if r.2 > 0 then none else some (c + r.1))

/-- Embeds `calculate_shopping_cost` (bsl_psd.rs lines 1460–1520): `⊤` models the
`f64::INFINITY` returns. -/
def calculate_shopping_cost (B : BSLPSD) (route : List StoreId) (L : ShoppingList) :
    WithTop ℚ :=
  if ¬ can_fulfill_shopping_list B route L then ⊤
  else
    match routeCostAux B route L.items (some 0) with
    | none => ⊤
    | some c => (c : WithTop ℚ)

/-- Coverage predicate (the claim's "inventories of the stores of R jointly cover L"): each
required quantity is at most the summed (per occurrence) effective
inventory along the route. -/
def coverable (B : BSLPSD) (route : List StoreId) (L : ShoppingList) : Prop :=
  ∀ e ∈ L.items, e.2 ≤ (route.map (fun s => effInv (B.store s) e.1)).sum

instance (B : BSLPSD) (route : List StoreId) (L : ShoppingList) :
    Decidable (coverable B route L) := List.decidableBAll _ _

/-! ### Allocations: the optimality yardstick of §4.2 of the spec -/

/-- A purchase plan `alloc p s` = units of product `p` bought at store `s`
is feasible for route `R` and list `L` when every listed quantity is met
exactly by purchases along `R`, each within the store's inventory. -/
def IsFeasibleAlloc (B : BSLPSD) (R : List StoreId) (L : ShoppingList)
    (alloc : ProductId → StoreId → ℕ) : Prop :=
  ∀ e ∈ L.items,
    (R.map (alloc e.1)).sum = e.2 ∧ ∀ s ∈ R, alloc e.1 s ≤ effInv (B.store s) e.1

/-- Price of product `p` at a store (0 when absent; an absent product can
never be allocated, so the default is never priced). -/
def priceD (st : Store) (p : ProductId) : ℚ := (st.products p).getD 0

/-- Total purchase cost of an allocation. -/
def allocTotalCost (B : BSLPSD) (R : List StoreId) (L : ShoppingList)
    (alloc : ProductId → StoreId → ℕ) : ℚ :=
  (L.items.map (fun e =>
    (R.map (fun s => (alloc e.1 s : ℚ) * priceD (B.store s) e.1)).sum)).sum

/-! ### Skyline monitor (`conventionally_dominates`, `update_skyline`) -/

/-- Embeds `ShoppingRoute` (route.rs lines 8–17). Times and costs are `f64` in the
source; `⊤` models `+∞`. -/
structure ShoppingRoute where
  stores : List StoreId
  shopping_time : WithTop ℚ
  shopping_cost : WithTop ℚ
deriving DecidableEq

/-- Embeds `ShoppingRoute::conventionally_dominates` (route.rs lines 32–43). -/
def conventionally_dominates (a b : ShoppingRoute) : Bool :=
  (decide (a.shopping_time < b.shopping_time) && decide (a.shopping_cost ≤ b.shopping_cost)) ||
  (decide (a.shopping_time ≤ b.shopping_time) && decide (a.shopping_cost < b.shopping_cost)) ||
  (decide (a.shopping_time = b.shopping_time) && decide (a.shopping_cost = b.shopping_cost) &&
    decide (a.stores.length < b.stores.length))

/-- Embeds `update_skyline` (bsl_psd.rs lines 922–937): returns the Rust bool and
the updated skyline vector. -/
def update_skyline (skyline : List ShoppingRoute) (route : ShoppingRoute) :
    Bool × List ShoppingRoute :=
  if skyline.any (fun e => conventionally_dominates e route || e == route) then
    (false, skyline)
  else
    (true, (skyline.filter (fun e => !(conventionally_dominates route e))) ++ [route])

/-- Neither route conventionally dominates the other (the spec's pairwise
skyline invariant, §8 invariant 1). -/
def nonDominating (a b : ShoppingRoute) : Prop :=
  conventionally_dominates a b = false ∧ conventionally_dominates b a = false

instance : DecidableRel nonDominating := fun _ _ => instDecidableAnd

/-! ### First theorems: the comparison model (C9) and
`calculate_shopping_time` (C10) -/

/-- Embeds `RouteCandidate` (route.rs lines 47–54) as used by the search loops:
shopping time in `WithTop ℚ`. -/
structure RouteCandidate where
  stores : List StoreId
  shopping_time : WithTop ℚ
deriving DecidableEq

/-- Embeds `calculate_shopping_time` (bsl_psd.rs lines 1422–1457): empty route →
`0.0`; otherwise shopper→first leg, `travel_times` legs (missing = `+∞`),
last→customer leg. -/
def calculate_shopping_time (B : BSLPSD) (route : List StoreId) (S C : Loc) : WithTop ℚ :=
  match route with
  | [] => 0
  | first :: rest =>
    let mid : List (WithTop ℚ) :=
      ((first :: rest).zip rest).map (fun pr => ((B.travel pr.1 pr.2).map (↑·)).getD ⊤)
    ((B.dist S (B.store first).location : ℚ) : WithTop ℚ) + mid.sum +
      ((B.dist (B.store ((first :: rest).getLastD first)).location C : ℚ) : WithTop ℚ)

/-- C9: the queue comparisons are total (always one of lt/eq/gt — no
`unwrap` can fail) and a NaN operand makes `F64Wrapper`, `QueueState` and
`RouteCandidate` comparisons return `Equal`, never `Less`. -/
theorem queue_cmp_total_nan_eq :
    (∀ a b : F64, f64WrapperCmp a b = .lt ∨ f64WrapperCmp a b = .eq ∨ f64WrapperCmp a b = .gt) ∧
    (∀ b : F64, f64WrapperCmp .nan b = .eq ∧ f64WrapperCmp b .nan = .eq) ∧
    (∀ (s : StoreId) (it : RemList) (b : QueueStateM),
      queueStateCmp ⟨.nan, s, it⟩ b = .eq ∧ queueStateCmp b ⟨.nan, s, it⟩ = .eq) ∧
    (∀ (l : List StoreId) (b : RouteCandidateM),
      routeCandidateCmp ⟨l, .nan⟩ b = .eq ∧ routeCandidateCmp b ⟨l, .nan⟩ = .eq) := by
  refine ⟨?_, ?_, ?_, ?_⟩
  · intro a b
    rcases h : f64WrapperCmp a b with _ | _ | _
    · exact Or.inl rfl
    · exact Or.inr (Or.inl rfl)
    · exact Or.inr (Or.inr rfl)
  · intro b
    cases b <;> simp [f64WrapperCmp, fcmp]
  · intro s it b
    cases hb : b.distance <;>
      simp [queueStateCmp, f64WrapperCmp, fcmp, hb]
  · intro l b
    cases hb : b.shopping_time <;>
      simp [routeCandidateCmp, fcmp, hb]

/-- C10: the trait method `calculate_shopping_time` returns exactly `0.0`
on an empty route, for every catalogue and every pair of locations. -/
theorem calculate_shopping_time_nil (B : BSLPSD) (S C : Loc) :
    calculate_shopping_time B [] S C = 0 := rfl

/-! ### Greedy allocation machinery

`ValidAlloc opts a` pairs an option list (price, available units) with a
purchase vector bounded by the availabilities; the greedy cheapest-first
fill is proved to minimise `allocCost` among vectors of the required sum. -/

inductive ValidAlloc : List (ℚ × ℕ) → List ℕ → Prop
  | nil : ValidAlloc [] []
  | cons {o : ℚ × ℕ} {opts : List (ℚ × ℕ)} {x : ℕ} {a : List ℕ} :
      x ≤ o.2 → ValidAlloc opts a → ValidAlloc (o :: opts) (x :: a)

/-- Cost of a purchase vector against an option list. -/
def allocCost : List (ℚ × ℕ) → List ℕ → ℚ
  | [], _ => 0
  | _ :: _, [] => 0
  | o :: opts, x :: a => o.1 * (x : ℚ) + allocCost opts a

lemma sub_min_eq (c q : ℕ) : q - min c q = q - c := by
  rcases Nat.le_total c q with h | h
  · simp [Nat.min_def, h]
  · simp only [Nat.min_def]
    split <;> omega

lemma fillGreedy_snd : ∀ (opts : List (ℚ × ℕ)) (q : ℕ),
    (fillGreedy q opts).2 = q - (opts.map (fun o => o.2)).sum
  | [], q => by simp [fillGreedy]
  | o :: rest, q => by
    have ih := fillGreedy_snd rest (q - min o.2 q)
    simp only [fillGreedy, List.map_cons, List.sum_cons]
    rw [ih, sub_min_eq, Nat.sub_sub]

lemma alloc_shrink (p0 : ℚ) {opts : List (ℚ × ℕ)} {a : List ℕ}
    (hp : ∀ o ∈ opts, p0 ≤ o.1) (h : ValidAlloc opts a) :
    ∀ d : ℕ, d ≤ a.sum →
      ∃ b, ValidAlloc opts b ∧ b.sum = a.sum - d ∧
        allocCost opts b + p0 * (d : ℚ) ≤ allocCost opts a := by
  induction h with
  | nil =>
    intro d hd
    simp only [List.sum_nil, Nat.le_zero] at hd
    subst hd
    exact ⟨[], ValidAlloc.nil, by simp, by simp [allocCost]⟩
  | @cons o opts' x a' hx hrest ih =>
    intro d hd
    have hpo : p0 ≤ o.1 := hp o (List.mem_cons_self o opts')
    have hp' : ∀ o' ∈ opts', p0 ≤ o'.1 := fun o' ho' => hp o' (List.mem_cons_of_mem o ho')
    set r := min x d with hr
    have hrx : r ≤ x := Nat.min_le_left x d
    have hrd : r ≤ d := Nat.min_le_right x d
    have hsum : d ≤ x + a'.sum := by simpa using hd
    have hd' : d - r ≤ a'.sum := by omega
    obtain ⟨b', hb'v, hb's, hb'c⟩ := (ih hp') (d - r) hd'
    refine ⟨(x - r) :: b', ValidAlloc.cons (le_trans (Nat.sub_le x r) hx) hb'v, ?_, ?_⟩
    · simp only [List.sum_cons, hb's]
      omega
    · simp only [allocCost, List.sum_cons]
      have hcast1 : ((x - r : ℕ) : ℚ) = (x : ℚ) - (r : ℚ) := Nat.cast_sub hrx
      have hcast2 : ((d - r : ℕ) : ℚ) = (d : ℚ) - (r : ℚ) := Nat.cast_sub hrd
      rw [hcast2] at hb'c
      have hmul : p0 * (r : ℚ) ≤ o.1 * (r : ℚ) :=
        mul_le_mul_of_nonneg_right hpo (by positivity)
      rw [hcast1]
      nlinarith [hb'c, hmul]

lemma fillGreedy_le_allocCost_sorted :
    ∀ (opts : List (ℚ × ℕ)), opts.Pairwise priceLE →
      ∀ (q : ℕ) (a : List ℕ), ValidAlloc opts a → a.sum = q →
        (fillGreedy q opts).1 ≤ allocCost opts a := by
  intro opts
  induction opts with
  | nil =>
    intro _ q a ha hq
    cases ha
    simp [fillGreedy, allocCost]
  | cons o rest ih =>
    intro hs q a ha hq
    rcases List.pairwise_cons.mp hs with ⟨hhead, hrest⟩
    cases ha with
    | cons hx ha' =>
      rename_i x a'
      have hxq : x ≤ q := by
        subst hq; simp only [List.sum_cons]; omega
      set t := min o.2 q with ht
      have hxt : x ≤ t := le_min hx hxq
      have htq : t ≤ q := Nat.min_le_right o.2 q
      have hda : t - x ≤ a'.sum := by
        subst hq; simp only [List.sum_cons] at *; omega
      obtain ⟨b, hbv, hbs, hbc⟩ := alloc_shrink o.1 hhead ha' (t - x) hda
      have hbsum : b.sum = q - t := by
        rw [hbs]
        subst hq; simp only [List.sum_cons]; omega
      have hg := ih hrest (q - t) b hbv hbsum
      simp only [fillGreedy, allocCost]
      have hcast : ((t - x : ℕ) : ℚ) = (t : ℚ) - (x : ℚ) := Nat.cast_sub hxt
      rw [hcast] at hbc
      nlinarith [hg, hbc]

/-- The purchase vector realised by the greedy fill. -/
def greedyAllocL : ℕ → List (ℚ × ℕ) → List ℕ
  | _, [] => []
  | rem, o :: rest => min o.2 rem :: greedyAllocL (rem - min o.2 rem) rest

lemma greedyAllocL_valid : ∀ (opts : List (ℚ × ℕ)) (q : ℕ), ValidAlloc opts (greedyAllocL q opts)
  | [], _ => ValidAlloc.nil
  | o :: rest, q =>
    ValidAlloc.cons (Nat.min_le_left o.2 q) (greedyAllocL_valid rest (q - min o.2 q))

lemma greedyAllocL_sum : ∀ (opts : List (ℚ × ℕ)) (q : ℕ),
    (greedyAllocL q opts).sum + (fillGreedy q opts).2 = q
  | [], q => by simp [greedyAllocL, fillGreedy]
  | o :: rest, q => by
    have ih := greedyAllocL_sum rest (q - min o.2 q)
    simp only [greedyAllocL, fillGreedy, List.sum_cons]
    omega

lemma greedyAllocL_cost : ∀ (opts : List (ℚ × ℕ)) (q : ℕ),
    allocCost opts (greedyAllocL q opts) = (fillGreedy q opts).1
  | [], q => by simp [greedyAllocL, fillGreedy, allocCost]
  | o :: rest, q => by
    have ih := greedyAllocL_cost rest (q - min o.2 q)
    simp only [greedyAllocL, fillGreedy, allocCost, ih]

lemma validAlloc_perm {l1 l2 : List (ℚ × ℕ)} (hp : l1.Perm l2) :
    ∀ a, ValidAlloc l1 a →
      ∃ b, ValidAlloc l2 b ∧ b.sum = a.sum ∧ allocCost l2 b = allocCost l1 a := by
  induction hp with
  | nil =>
    intro a ha
    cases ha
    exact ⟨[], ValidAlloc.nil, rfl, rfl⟩
  | cons o p ih =>
    intro a ha
    cases ha with
    | cons hx ha' =>
      rename_i x a'
      obtain ⟨b', hb, hs, hc⟩ := ih a' ha'
      exact ⟨x :: b', ValidAlloc.cons hx hb, by simp [hs], by simp [allocCost, hc]⟩
  | swap o1 o2 l =>
    intro a ha
    cases ha with
    | cons hx ha' =>
      rename_i x a''
      cases ha' with
      | cons hy ha'' =>
        rename_i y a3
        refine ⟨y :: x :: a3, ValidAlloc.cons hy (ValidAlloc.cons hx ha''), by simp [Nat.add_left_comm], ?_⟩
        simp only [allocCost]
        ring
  | trans p1 p2 ih1 ih2 =>
    intro a ha
    obtain ⟨b, hb, hs, hc⟩ := ih1 a ha
    obtain ⟨c, hcv, hcs, hcc⟩ := ih2 b hb
    exact ⟨c, hcv, hcs.trans hs, hcc.trans hc⟩

/-! ### Option lists vs effective inventory -/

lemma storeOption_none_effInv {st : Store} {p : ProductId}
    (h : storeOption st p = none) : effInv st p = 0 := by
  unfold storeOption at h
  rcases hp : st.products p with _ | c
  · unfold effInv
    simp [hp]
  · simp only [hp] at h
    split at h
    · exact absurd h (by simp)
    · rename_i hnpos
      unfold effInv
      simp only [hp, Option.isSome_some, if_true]
      omega

lemma storeOption_some {st : Store} {p : ProductId} {c : ℚ} {n : ℕ}
    (h : storeOption st p = some (c, n)) :
    st.products p = some c ∧ st.inventory p = n ∧ 0 < n ∧ effInv st p = n := by
  unfold storeOption at h
  rcases hp : st.products p with _ | c'
  · simp [hp] at h
  · simp only [hp] at h
    split at h
    · rename_i hpos
      simp only [Option.some_inj, Prod.mk.injEq] at h
      obtain ⟨hc, hn⟩ := h
      refine ⟨congrArg some hc, hn, hn ▸ hpos, ?_⟩
      unfold effInv
      simp [hp, hn]
    · exact absurd h (by simp)

lemma routeOptions_caps_sum (B : BSLPSD) (R : List StoreId) (p : ProductId) :
    ((routeOptions B R p).map (fun o => o.2)).sum =
      (R.map (fun s => effInv (B.store s) p)).sum := by
  induction R with
  | nil => simp [routeOptions]
  | cons s R ih =>
    simp only [routeOptions, List.filterMap_cons, List.map_cons, List.sum_cons]
    rcases h : storeOption (B.store s) p with _ | o
    · rw [storeOption_none_effInv h]
      simpa [routeOptions] using ih
    · obtain ⟨-, -, -, he⟩ := storeOption_some (c := o.1) (n := o.2) (by simpa using h)
      simp only [List.map_cons, List.sum_cons, he]
      simpa [routeOptions] using congrArg (fun n => o.2 + n) ih

/-! ### `productFill` against the unsorted option list -/

lemma productFill_snd (B : BSLPSD) (R : List StoreId) (p : ProductId) (q : ℕ) :
    (productFill B R p q).2 = q - (R.map (fun s => effInv (B.store s) p)).sum := by
  unfold productFill
  rw [fillGreedy_snd]
  congr 1
  rw [((List.perm_insertionSort priceLE (routeOptions B R p)).map (fun o => o.2)).sum_eq,
    routeOptions_caps_sum]

lemma productFill_min (B : BSLPSD) (R : List StoreId) (p : ProductId) (q : ℕ)
    (a : List ℕ) (ha : ValidAlloc (routeOptions B R p) a) (hs : a.sum = q) :
    (productFill B R p q).1 ≤ allocCost (routeOptions B R p) a := by
  obtain ⟨b, hb, hbs, hbc⟩ :=
    validAlloc_perm (List.perm_insertionSort priceLE (routeOptions B R p)).symm a ha
  rw [← hbc]
  exact fillGreedy_le_allocCost_sorted _
    (List.sorted_insertionSort priceLE (routeOptions B R p)) q b hb (hbs.trans hs)

lemma productFill_exists (B : BSLPSD) (R : List StoreId) (p : ProductId) (q : ℕ)
    (hq : q ≤ (R.map (fun s => effInv (B.store s) p)).sum) :
    ∃ a, ValidAlloc (routeOptions B R p) a ∧ a.sum = q ∧
      allocCost (routeOptions B R p) a = (productFill B R p q).1 := by
  have hsum0 : (productFill B R p q).2 = 0 := by
    rw [productFill_snd]; omega
  have hvs := greedyAllocL_valid (List.insertionSort priceLE (routeOptions B R p)) q
  have hss : (greedyAllocL q (List.insertionSort priceLE (routeOptions B R p))).sum = q := by
    have h := greedyAllocL_sum (List.insertionSort priceLE (routeOptions B R p)) q
    have : (fillGreedy q (List.insertionSort priceLE (routeOptions B R p))).2 = 0 := hsum0
    omega
  obtain ⟨a, hav, has, hac⟩ :=
    validAlloc_perm (List.perm_insertionSort priceLE (routeOptions B R p)) _ hvs
  refine ⟨a, hav, has.trans hss, ?_⟩
  rw [hac, greedyAllocL_cost]
  rfl

/-! ### `can_fulfill_shopping_list` characterisation -/

lemma foldl_deduct (B : BSLPSD) : ∀ (R : List StoreId) (items : RemList),
    R.foldl (fun rem s => deductAtStore (B.store s) rem) items =
      items.map (fun e => (e.1, e.2 - (R.map (fun s => effInv (B.store s) e.1)).sum))
  | [], items => by
    simp
  | s :: R, items => by
    have ih := foldl_deduct B R (deductAtStore (B.store s) items)
    simp only [List.foldl_cons]
    rw [ih]
    unfold deductAtStore
    rw [List.map_map]
    apply List.map_congr_left
    intro e _
    simp only [Function.comp_apply, List.map_cons, List.sum_cons]
    congr 1
    rw [sub_min_eq, Nat.sub_sub]

lemma can_fulfill_iff (B : BSLPSD) (R : List StoreId) (L : ShoppingList) :
    can_fulfill_shopping_list B R L = true ↔ coverable B R L := by
  unfold can_fulfill_shopping_list coverable
  rw [foldl_deduct]
  simp only [List.all_eq_true, List.mem_map, forall_exists_index, and_imp]
  constructor
  · intro h e he
    have := h _ e he rfl
    simp only [decide_eq_true_eq] at this
    omega
  · intro h x e he hx
    subst hx
    simp only [decide_eq_true_eq]
    have := h e he
    omega

lemma routeCostAux_some (B : BSLPSD) (R : List StoreId) :
    ∀ (items : List (ProductId × ℕ)) (c : ℚ),
      (∀ e ∈ items, (productFill B R e.1 e.2).2 = 0) →
      routeCostAux B R items (some c) =
        some (c + (items.map (fun e => (productFill B R e.1 e.2).1)).sum)
  | [], c, _ => by simp [routeCostAux]
  | e :: rest, c, h => by
    have he := h e (List.mem_cons_self e rest)
    have ih := routeCostAux_some B R rest (c + (productFill B R e.1 e.2).1)
      (fun x hx => h x (List.mem_cons_of_mem e hx))
    simp only [routeCostAux, he, gt_iff_lt, lt_irrefl, if_false]
    rw [ih, List.map_cons, List.sum_cons, add_assoc]

lemma calculate_eq_of_coverable (B : BSLPSD) (R : List StoreId) (L : ShoppingList)
    (h : coverable B R L) :
    calculate_shopping_cost B R L =
      ((L.items.map (fun e => (productFill B R e.1 e.2).1)).sum : ℚ) := by
  unfold calculate_shopping_cost
  have hful : can_fulfill_shopping_list B R L = true := (can_fulfill_iff B R L).2 h
  have hfills : ∀ e ∈ L.items, (productFill B R e.1 e.2).2 = 0 := by
    intro e he
    rw [productFill_snd]
    have := h e he
    omega
  rw [routeCostAux_some B R L.items 0 hfills]
  simp [hful]

lemma calculate_eq_top_iff (B : BSLPSD) (R : List StoreId) (L : ShoppingList) :
    calculate_shopping_cost B R L = ⊤ ↔ ¬ coverable B R L := by
  constructor
  · intro htop hcov
    rw [calculate_eq_of_coverable B R L hcov] at htop
    exact (WithTop.coe_ne_top htop)
  · intro hcov
    unfold calculate_shopping_cost
    have : ¬ can_fulfill_shopping_list B R L = true :=
      fun hc => hcov ((can_fulfill_iff B R L).1 hc)
    simp [this]

/-! ### Bridging purchase vectors and per-store allocation functions -/

lemma alloc_to_fun (B : BSLPSD) (p : ProductId) :
    ∀ (R : List StoreId) (a : List ℕ), ValidAlloc (routeOptions B R p) a → R.Nodup →
      ∃ f : StoreId → ℕ, (∀ s, s ∉ R → f s = 0) ∧
        (∀ s, f s ≤ effInv (B.store s) p) ∧
        (R.map f).sum = a.sum ∧
        (R.map (fun s => (f s : ℚ) * priceD (B.store s) p)).sum =
          allocCost (routeOptions B R p) a := by
  intro R
  induction R with
  | nil =>
    intro a ha _
    cases ha
    exact ⟨fun _ => 0, fun _ _ => rfl, fun s => Nat.zero_le _, by simp, by simp [allocCost]⟩
  | cons s R' ih =>
    intro a ha hnd
    have hsR' : s ∉ R' := (List.nodup_cons.mp hnd).1
    have hnd' : R'.Nodup := (List.nodup_cons.mp hnd).2
    rcases hso : storeOption (B.store s) p with _ | o
    · have hopts : routeOptions B (s :: R') p = routeOptions B R' p := by
        simp [routeOptions, List.filterMap_cons, hso]
      rw [hopts] at ha
      obtain ⟨f', h0, hb, hs', hc⟩ := ih a ha hnd'
      refine ⟨fun t => if t = s then 0 else f' t, ?_, ?_, ?_, ?_⟩
      · intro t ht
        have hts : t ≠ s := fun h => ht (h ▸ List.mem_cons_self s R')
        have htR : t ∉ R' := fun h => ht (List.mem_cons_of_mem s h)
        simp [hts, h0 t htR]
      · intro t
        by_cases ht : t = s <;> simp [ht, hb]
      · simp only [List.map_cons, List.sum_cons, if_true]
        rw [List.map_congr_left (fun t htR => if_neg (fun h : t = s => hsR' (h ▸ htR)))]
        simpa using hs'
      · rw [hopts]
        simp only [List.map_cons, List.sum_cons, if_true]
        rw [List.map_congr_left
          (fun t htR => by rw [if_neg (fun h : t = s => hsR' (h ▸ htR))])]
        simpa using hc
    · have hopts : routeOptions B (s :: R') p = o :: routeOptions B R' p := by
        simp [routeOptions, List.filterMap_cons, hso]
      rw [hopts] at ha
      cases ha with
      | cons hx ha' =>
        rename_i x a'
        obtain ⟨hprod, -, -, heff⟩ := storeOption_some (c := o.1) (n := o.2)
          (by simpa using hso)
        obtain ⟨f', h0, hb, hs', hc⟩ := ih a' ha' hnd'
        refine ⟨fun t => if t = s then x else f' t, ?_, ?_, ?_, ?_⟩
        · intro t ht
          have hts : t ≠ s := fun h => ht (h ▸ List.mem_cons_self s R')
          have htR : t ∉ R' := fun h => ht (List.mem_cons_of_mem s h)
          simp [hts, h0 t htR]
        · intro t
          by_cases ht : t = s
          · subst ht
            simp only [if_true, heff]
            exact hx
          · simp [ht, hb]
        · simp only [List.map_cons, List.sum_cons, if_true, List.sum_cons]
          rw [List.map_congr_left (fun t htR => if_neg (fun h : t = s => hsR' (h ▸ htR)))]
          simp [hs']
        · rw [hopts]
          simp only [List.map_cons, List.sum_cons, if_true, allocCost]
          rw [List.map_congr_left
            (fun t htR => by rw [if_neg (fun h : t = s => hsR' (h ▸ htR))])]
          rw [hc]
          have hpd : priceD (B.store s) p = o.1 := by
            unfold priceD
            simp [hprod]
          rw [hpd]
          ring

lemma fun_to_alloc (B : BSLPSD) (p : ProductId) :
    ∀ (R : List StoreId) (f : StoreId → ℕ), (∀ s ∈ R, f s ≤ effInv (B.store s) p) →
      ∃ a, ValidAlloc (routeOptions B R p) a ∧ a.sum = (R.map f).sum ∧
        allocCost (routeOptions B R p) a =
          (R.map (fun s => (f s : ℚ) * priceD (B.store s) p)).sum := by
  intro R
  induction R with
  | nil =>
    intro f _
    exact ⟨[], ValidAlloc.nil, by simp, by simp [allocCost]⟩
  | cons s R' ih =>
    intro f hbound
    have hb' : ∀ t ∈ R', f t ≤ effInv (B.store t) p :=
      fun t ht => hbound t (List.mem_cons_of_mem s ht)
    obtain ⟨a', ha'v, ha's, ha'c⟩ := ih f hb'
    rcases hso : storeOption (B.store s) p with _ | o
    · have hopts : routeOptions B (s :: R') p = routeOptions B R' p := by
        simp [routeOptions, List.filterMap_cons, hso]
      have hf0 : f s = 0 := by
        have := hbound s (List.mem_cons_self s R')
        rw [storeOption_none_effInv hso] at this
        omega
      refine ⟨a', hopts ▸ ha'v, ?_, ?_⟩
      · simp [ha's, hf0]
      · rw [hopts, ha'c]
        simp [hf0]
    · have hopts : routeOptions B (s :: R') p = o :: routeOptions B R' p := by
        simp [routeOptions, List.filterMap_cons, hso]
      obtain ⟨hprod, -, -, heff⟩ := storeOption_some (c := o.1) (n := o.2)
        (by simpa using hso)
      have hfs : f s ≤ o.2 := heff ▸ hbound s (List.mem_cons_self s R')
      refine ⟨f s :: a', hopts ▸ ValidAlloc.cons hfs ha'v, ?_, ?_⟩
      · simp [ha's]
      · rw [hopts]
        simp only [allocCost, List.map_cons, List.sum_cons, ha'c]
        have hpd : priceD (B.store s) p = o.1 := by
          unfold priceD
          simp [hprod]
        rw [hpd]
        ring

lemma combine_entry_funs (P : (ProductId × ℕ) → (StoreId → ℕ) → Prop) :
    ∀ (items : List (ProductId × ℕ)), (items.map Prod.fst).Nodup →
      (∀ e ∈ items, ∃ f, P e f) →
      ∃ F : ProductId → StoreId → ℕ, ∀ e ∈ items, P e (F e.1)
  | [], _, _ => ⟨fun _ _ => 0, fun e he => absurd he (List.not_mem_nil e)⟩
  | e :: rest, hnd, hex => by
    rw [List.map_cons, List.nodup_cons] at hnd
    obtain ⟨F', hF'⟩ := combine_entry_funs P rest hnd.2
      (fun x hx => hex x (List.mem_cons_of_mem e hx))
    obtain ⟨fe, hfe⟩ := hex e (List.mem_cons_self e rest)
    refine ⟨fun p => if p = e.1 then fe else F' p, ?_⟩
    intro x hx
    rcases List.mem_cons.mp hx with h | h
    · subst h
      simp [hfe]
    · have hne : x.1 ≠ e.1 := fun hh => hnd.1 (hh ▸ List.mem_map_of_mem Prod.fst h)
      simp only [if_neg hne]
      exact hF' x h

/-- C1, amended to routes without repeated stores: `calculate_shopping_cost`
returns `+∞` iff the route's inventories cannot jointly cover the list, and
otherwise returns a finite value that is the minimum total purchase cost
over all feasible allocations of the list to the route's stores. -/
theorem calculate_shopping_cost_correct (B : BSLPSD) (R : List StoreId) (L : ShoppingList)
    (hR : R.Nodup) (hL : (L.items.map Prod.fst).Nodup) :
    (calculate_shopping_cost B R L = ⊤ ↔ ¬ coverable B R L) ∧
    (coverable B R L →
      ∃ c : ℚ, calculate_shopping_cost B R L = (c : WithTop ℚ) ∧
        (∃ alloc, IsFeasibleAlloc B R L alloc ∧ allocTotalCost B R L alloc = c) ∧
        (∀ alloc, IsFeasibleAlloc B R L alloc → c ≤ allocTotalCost B R L alloc)) := by
  refine ⟨calculate_eq_top_iff B R L, ?_⟩
  intro hcov
  refine ⟨(L.items.map (fun e => (productFill B R e.1 e.2).1)).sum,
    calculate_eq_of_coverable B R L hcov, ?_, ?_⟩
  · have hex : ∀ e ∈ L.items, ∃ f : StoreId → ℕ,
        (∀ s, f s ≤ effInv (B.store s) e.1) ∧
        (R.map f).sum = e.2 ∧
        (R.map (fun s => (f s : ℚ) * priceD (B.store s) e.1)).sum =
          (productFill B R e.1 e.2).1 := by
      intro e he
      obtain ⟨a, hav, has, hac⟩ := productFill_exists B R e.1 e.2 (hcov e he)
      obtain ⟨f, -, hfb, hfs, hfc⟩ := alloc_to_fun B e.1 R a hav hR
      exact ⟨f, hfb, by rw [hfs, has], by rw [hfc, hac]⟩
    obtain ⟨F, hF⟩ := combine_entry_funs _ L.items hL hex
    refine ⟨F, ?_, ?_⟩
    · intro e he
      obtain ⟨hb, hs, -⟩ := hF e he
      exact ⟨hs, fun s _ => hb s⟩
    · unfold allocTotalCost
      apply congrArg List.sum
      apply List.map_congr_left
      intro e he
      exact (hF e he).2.2
  · intro alloc hfe
    unfold allocTotalCost
    apply List.sum_le_sum
    intro e he
    obtain ⟨hsum, hb⟩ := hfe e he
    obtain ⟨a, hav, has, hac⟩ := fun_to_alloc B e.1 R (alloc e.1) hb
    have hmin := productFill_min B R e.1 e.2 a hav (has.trans hsum)
    rw [hac] at hmin
    exact hmin

/-- A concrete store built from a `(product, price, stock)` table. -/
def mkStore (id : StoreId) (tbl : List (ProductId × ℚ × ℕ)) : Store where
  id := id
  location := (0, 0)
  products := fun p => (tbl.find? (fun e => e.1 == p)).map (fun e => e.2.1)
  inventory := fun p => ((tbl.find? (fun e => e.1 == p)).map (fun e => e.2.2)).getD 0

/-- Catalogue for the C1 counterexample: one store selling one unit of
product 1 at price 1. -/
def catC1 : BSLPSD where
  storeIds := [1]
  store := fun _ => mkStore 1 [(1, 1, 1)]
  travel := fun _ _ => none
  dist := fun _ _ => 0

/-- Shopping list requesting two units of product 1. -/
def listC1 : ShoppingList := ⟨[(1, 2)], 0⟩

/-- C1 counterexample: on the duplicate route `[1, 1]` the code counts
store 1's single unit twice and returns the finite cost 2, although the
inventories of the stores of the route (just store 1, holding one unit)
cannot jointly cover the requested two units. -/
theorem calculate_shopping_cost_dup_counterexample :
    calculate_shopping_cost catC1 [1, 1] listC1 = ((2 : ℚ) : WithTop ℚ) ∧
    ¬ coverable catC1 [1] listC1 := by
  constructor
  · norm_num [calculate_shopping_cost, can_fulfill_shopping_list, deductAtStore,
      routeCostAux, productFill, fillGreedy, routeOptions, storeOption, mkStore,
      catC1, listC1, effInv, List.insertionSort, List.orderedInsert, priceLE]
  · decide

/-- Witness catalogue: store 1 sells two units of product 1 at price 1,
store 2 sells ten units at price 5. -/
def catC1w : BSLPSD where
  storeIds := [1, 2]
  store := fun s => if s = 1 then mkStore 1 [(1, 1, 2)] else mkStore 2 [(1, 5, 10)]
  travel := fun _ _ => none
  dist := fun _ _ => 0

/-- Shopping list requesting three units of product 1. -/
def listC1w : ShoppingList := ⟨[(1, 3)], 0⟩

/-- Witness for the amended C1 theorem at a concrete route. -/
theorem calculate_shopping_cost_correct_witness :
    ([1, 2] : List StoreId).Nodup ∧ (listC1w.items.map Prod.fst).Nodup ∧
    ((calculate_shopping_cost catC1w [1, 2] listC1w = ⊤ ↔
        ¬ coverable catC1w [1, 2] listC1w) ∧
      (coverable catC1w [1, 2] listC1w →
        ∃ c : ℚ, calculate_shopping_cost catC1w [1, 2] listC1w = (c : WithTop ℚ) ∧
          (∃ alloc, IsFeasibleAlloc catC1w [1, 2] listC1w alloc ∧
            allocTotalCost catC1w [1, 2] listC1w alloc = c) ∧
          (∀ alloc, IsFeasibleAlloc catC1w [1, 2] listC1w alloc →
            c ≤ allocTotalCost catC1w [1, 2] listC1w alloc))) :=
  ⟨by decide, by decide,
    calculate_shopping_cost_correct catC1w [1, 2] listC1w (by decide) (by decide)⟩

/-! ### Inverted index and `find_min_cost_route` -/

/-- Comparison used by `build_inverted_list`'s sort: ascending unit cost. -/
def pairLE (a b : StoreId × ℚ) : Prop := a.2 ≤ b.2

instance : DecidableRel pairLE := fun a b => inferInstanceAs (Decidable (a.2 ≤ b.2))

instance : IsTotal (StoreId × ℚ) pairLE := ⟨fun a b => le_total a.2 b.2⟩

instance : IsTrans (StoreId × ℚ) pairLE := ⟨fun _ _ _ h h' => le_trans h h'⟩

/-- The `(store_id, cost)` pair `build_inverted_list` pushes for a store:
present iff the store carries the product with positive inventory. -/
def indexEntry (B : BSLPSD) (p : ProductId) (s : StoreId) : Option (StoreId × ℚ) :=
  match (B.store s).products p with
  | some c => if 0 < (B.store s).inventory p then some (s, c) else none
  | none => none

/-- Embeds `product_to_stores` after `precompute_data` / `build_inverted_list`
(bsl_psd.rs lines 105–128): the store/cost pairs of all stores with
available inventory, sorted by ascending cost. -/
def product_to_stores (B : BSLPSD) (p : ProductId) : List (StoreId × ℚ) :=
  List.insertionSort pairLE (B.storeIds.filterMap (indexEntry B p))

/-- The availability tally of `find_min_cost_route`'s feasibility loop:
inventory summed over the product's inverted-index entries. -/
def availableOf (B : BSLPSD) (p : ProductId) : ℕ :=
  ((product_to_stores B p).map (fun e => (B.store e.1).inventory p)).sum

/-- The `(cost, available)` option tuples of `find_min_cost_route`'s
allocation loop, gathered over the inverted-index entries.  (As in
`routeOptions`, the `unwrap_or(INFINITY)` price default is unreachable:
index entries always carry the product.) -/
def globalOptions (B : BSLPSD) (p : ProductId) : List (ℚ × ℕ) :=
  (product_to_stores B p).filterMap (fun e => storeOption (B.store e.1) p)

/-- Per-product greedy fill of `find_min_cost_route` (sort by cost, then
allocate cheapest-first). -/
def globalFill (B : BSLPSD) (p : ProductId) (q : ℕ) : ℚ × ℕ :=
  fillGreedy q (List.insertionSort priceLE (globalOptions B p))

/-- Embeds `find_min_cost_route` (bsl_psd.rs lines 131–196): `none` when some
product's aggregate inventory across the index is insufficient, otherwise
the summed greedy allocation cost.  The two location arguments are unused
by the source body as well. -/
def find_min_cost_route (B : BSLPSD) (L : ShoppingList) (_S _C : Loc) : Option ℚ :=
  if L.items.all (fun e => e.2 ≤ availableOf B e.1) then
    some ((L.items.map (fun e => (globalFill B e.1 e.2).1)).sum)
  else none

lemma indexEntry_none_storeOption {B : BSLPSD} {p : ProductId} {s : StoreId}
    (h : indexEntry B p s = none) : storeOption (B.store s) p = none := by
  unfold indexEntry at h
  unfold storeOption
  rcases hp : (B.store s).products p with _ | c
  · rfl
  · simp only [hp] at h
    split at h
    · exact absurd h (by simp)
    · rename_i hnpos
      simp [hnpos]

lemma indexEntry_some {B : BSLPSD} {p : ProductId} {s : StoreId} {e : StoreId × ℚ}
    (h : indexEntry B p s = some e) :
    e.1 = s ∧ (B.store s).products p = some e.2 ∧ 0 < (B.store s).inventory p := by
  unfold indexEntry at h
  rcases hp : (B.store s).products p with _ | c
  · simp [hp] at h
  · simp only [hp] at h
    split at h
    · rename_i hpos
      simp only [Option.some_inj] at h
      subst h
      exact ⟨rfl, rfl, hpos⟩
    · exact absurd h (by simp)

lemma filterMap_index_options (B : BSLPSD) (p : ProductId) : ∀ (ids : List StoreId),
    ((ids.filterMap (indexEntry B p)).filterMap (fun e => storeOption (B.store e.1) p)) =
      routeOptions B ids p := by
  intro ids
  induction ids with
  | nil => rfl
  | cons s ids' ih =>
    rcases hI : indexEntry B p s with _ | e
    · have hso := indexEntry_none_storeOption hI
      simp [routeOptions, List.filterMap_cons, hI, hso] at *
      exact ih
    · obtain ⟨he1, -, -⟩ := indexEntry_some hI
      simp only [routeOptions, List.filterMap_cons, hI, he1]
      rcases hso : storeOption (B.store s) p with _ | o <;>
        simp only [hso] <;> simpa [routeOptions] using ih

lemma globalOptions_perm (B : BSLPSD) (p : ProductId) :
    (globalOptions B p).Perm (routeOptions B B.storeIds p) := by
  unfold globalOptions product_to_stores
  have h1 := (List.perm_insertionSort pairLE
    (B.storeIds.filterMap (indexEntry B p))).filterMap
    (fun e => storeOption (B.store e.1) p)
  rw [filterMap_index_options B p B.storeIds] at h1
  exact h1

lemma availableOf_eq (B : BSLPSD) (p : ProductId) :
    availableOf B p = (B.storeIds.map (fun s => effInv (B.store s) p)).sum := by
  unfold availableOf product_to_stores
  rw [((List.perm_insertionSort pairLE (B.storeIds.filterMap (indexEntry B p))).map
    (fun e => (B.store e.1).inventory p)).sum_eq]
  induction B.storeIds with
  | nil => simp
  | cons s ids ih =>
    rcases hI : indexEntry B p s with _ | e
    · have h0 : effInv (B.store s) p = 0 :=
        storeOption_none_effInv (indexEntry_none_storeOption hI)
      simp only [List.filterMap_cons, hI, List.map_cons, List.sum_cons, h0, Nat.zero_add]
      exact ih
    · obtain ⟨he1, hprod, -⟩ := indexEntry_some hI
      have heff : effInv (B.store s) p = (B.store s).inventory p := by
        unfold effInv
        simp [hprod]
      simp only [List.filterMap_cons, hI, List.map_cons, List.sum_cons, he1, heff]
      exact congrArg (fun n => (B.store s).inventory p + n) ih

/-- Generalisation of `productFill_min`: the greedy fill over a sorted copy
of `opts` lower-bounds the cost of every valid purchase vector over any
permutation `base` of `opts`. -/
lemma fillGreedy_sorted_min (opts base : List (ℚ × ℕ)) (hp : opts.Perm base) (q : ℕ)
    (a : List ℕ) (ha : ValidAlloc base a) (hs : a.sum = q) :
    (fillGreedy q (List.insertionSort priceLE opts)).1 ≤ allocCost base a := by
  obtain ⟨b, hb, hbs, hbc⟩ :=
    validAlloc_perm (hp.symm.trans (List.perm_insertionSort priceLE opts).symm) a ha
  rw [← hbc]
  exact fillGreedy_le_allocCost_sorted _
    (List.sorted_insertionSort priceLE opts) q b hb (hbs.trans hs)

lemma sum_over_superset {M : Type} [AddCommMonoid M] :
    ∀ (U : List StoreId), U.Nodup →
      ∀ (R : List StoreId), R.Nodup → (∀ s ∈ R, s ∈ U) →
        ∀ (g : StoreId → M), (∀ s, s ∉ R → g s = 0) →
          (U.map g).sum = (R.map g).sum := by
  intro U
  induction U with
  | nil =>
    intro _ R _ hsub g hg
    cases R with
    | nil => simp
    | cons r R' => exact absurd (hsub r (List.mem_cons_self r R')) (List.not_mem_nil r)
  | cons u U' ih =>
    intro hU R hR hsub g hg
    have hUn : U'.Nodup := (List.nodup_cons.mp hU).2
    have huU' : u ∉ U' := (List.nodup_cons.mp hU).1
    by_cases hu : u ∈ R
    · have hperm : R.Perm (u :: R.erase u) := List.perm_cons_erase hu
      have hsumR : (R.map g).sum = g u + ((R.erase u).map g).sum := by
        rw [(hperm.map g).sum_eq]
        simp
      set g' : StoreId → M := fun s => if s = u then 0 else g s with hg'
      have hmapU' : (U'.map g).sum = (U'.map g').sum := by
        apply congrArg List.sum
        apply List.map_congr_left
        intro t ht
        have : t ≠ u := fun h => huU' (h ▸ ht)
        simp [hg', this]
      have hmapRe : ((R.erase u).map g).sum = ((R.erase u).map g').sum := by
        apply congrArg List.sum
        apply List.map_congr_left
        intro t ht
        have : t ≠ u := (hR.mem_erase_iff.mp ht).1
        simp [hg', this]
      have hsub' : ∀ s ∈ R.erase u, s ∈ U' := by
        intro s hs
        obtain ⟨hne, hsR⟩ := hR.mem_erase_iff.mp hs
        rcases List.mem_cons.mp (hsub s hsR) with h | h
        · exact absurd h hne
        · exact h
      have hg'0 : ∀ s, s ∉ R.erase u → g' s = 0 := by
        intro s hs
        by_cases hsu : s = u
        · simp [hg', hsu]
        · have : s ∉ R := fun hsR => hs (hR.mem_erase_iff.mpr ⟨hsu, hsR⟩)
          simp [hg', hsu, hg s this]
      have := ih hUn (R.erase u) (hR.erase u) hsub' g' hg'0
      calc ((u :: U').map g).sum = g u + (U'.map g).sum := by simp
        _ = g u + (U'.map g').sum := by rw [hmapU']
        _ = g u + ((R.erase u).map g').sum := by rw [this]
        _ = g u + ((R.erase u).map g).sum := by rw [hmapRe]
        _ = (R.map g).sum := hsumR.symm
    · have h0 : g u = 0 := hg u hu
      have hsub' : ∀ s ∈ R, s ∈ U' := by
        intro s hs
        rcases List.mem_cons.mp (hsub s hs) with h | h
        · exact absurd (h ▸ hs) hu
        · exact h
      have := ih hUn R hR hsub' g hg
      simp [h0, this]

/-- C4, amended to duplicate-free routes drawn from the catalogue: the
value of `find_min_cost_route` is a lower bound on the finite
`calculate_shopping_cost` of every such route. -/
theorem global_min_cost_lower_bound (B : BSLPSD) (L : ShoppingList) (S C : Loc)
    (R : List StoreId) (c c' : ℚ)
    (hIds : B.storeIds.Nodup) (hR : R.Nodup) (hsub : ∀ s ∈ R, s ∈ B.storeIds)
    (hmin : find_min_cost_route B L S C = some c)
    (hcost : calculate_shopping_cost B R L = (c' : WithTop ℚ)) :
    c ≤ c' := by
  unfold find_min_cost_route at hmin
  split at hmin
  case isFalse => exact absurd hmin (by simp)
  case isTrue hall =>
  have hc : c = (L.items.map (fun e => (globalFill B e.1 e.2).1)).sum :=
    (Option.some_inj.mp hmin).symm
  have hcov : coverable B R L := by
    by_contra hnc
    rw [(calculate_eq_top_iff B R L).2 hnc] at hcost
    exact WithTop.coe_ne_top hcost.symm
  have hc' : c' = (L.items.map (fun e => (productFill B R e.1 e.2).1)).sum := by
    have h1 := calculate_eq_of_coverable B R L hcov
    rw [hcost] at h1
    exact_mod_cast h1
  rw [hc, hc']
  apply List.sum_le_sum
  intro e he
  obtain ⟨a, hav, has, hac⟩ := productFill_exists B R e.1 e.2 (hcov e he)
  obtain ⟨f, h0, hb, hfs, hfc⟩ := alloc_to_fun B e.1 R a hav hR
  have hsumU : (B.storeIds.map f).sum = e.2 := by
    rw [sum_over_superset B.storeIds hIds R hR hsub f h0, hfs, has]
  have hcostU : (B.storeIds.map (fun s => (f s : ℚ) * priceD (B.store s) e.1)).sum
      = (productFill B R e.1 e.2).1 := by
    rw [sum_over_superset B.storeIds hIds R hR hsub _
      (fun s hs => by simp [h0 s hs]), hfc, hac]
  obtain ⟨b, hbv, hbs, hbc⟩ := fun_to_alloc B e.1 B.storeIds f (fun s _ => hb s)
  have hmin2 := fillGreedy_sorted_min (globalOptions B e.1) (routeOptions B B.storeIds e.1)
    (globalOptions_perm B e.1) e.2 b hbv (by rw [hbs, hsumU])
  rw [hbc, hcostU] at hmin2
  exact hmin2

/-- Catalogue for the C4 counterexample: store 1 sells one unit of
product 1 at price 1, store 2 sells five units at price 10. -/
def catC4 : BSLPSD where
  storeIds := [1, 2]
  store := fun s => if s = 1 then mkStore 1 [(1, 1, 1)] else mkStore 2 [(1, 10, 5)]
  travel := fun _ _ => none
  dist := fun _ _ => 0

/-- Shopping list requesting two units of product 1. -/
def listC4 : ShoppingList := ⟨[(1, 2)], 0⟩

/-- C4 counterexample: the duplicate route `[1, 1, 2]` — whose store set
`{1, 2}` jointly fulfils the list — is costed at 2 by
`calculate_shopping_cost` (store 1's single cheap unit is counted twice),
strictly below the `find_min_cost_route` value 11. -/
theorem global_min_cost_dup_counterexample :
    find_min_cost_route catC4 listC4 (0, 0) (0, 0) = some 11 ∧
    calculate_shopping_cost catC4 [1, 1, 2] listC4 = ((2 : ℚ) : WithTop ℚ) ∧
    coverable catC4 [1, 2] listC4 ∧
    ¬ ((11 : ℚ) ≤ 2) := by
  refine ⟨?_, ?_, by decide, by norm_num⟩
  · norm_num [find_min_cost_route, availableOf, product_to_stores, indexEntry,
      globalFill, globalOptions, storeOption, fillGreedy, mkStore, catC4, listC4,
      List.insertionSort, List.orderedInsert, pairLE, priceLE]
  · norm_num [calculate_shopping_cost, can_fulfill_shopping_list, deductAtStore,
      routeCostAux, productFill, fillGreedy, routeOptions, storeOption, mkStore,
      catC4, listC4, effInv, List.insertionSort, List.orderedInsert, priceLE]

/-- Witness for the amended C4 theorem: on the duplicate-free route
`[1, 2]` of the same catalogue the bound holds with 11 ≤ 11. -/
theorem global_min_cost_lower_bound_witness :
    catC4.storeIds.Nodup ∧ ([1, 2] : List StoreId).Nodup ∧
    (∀ s ∈ ([1, 2] : List StoreId), s ∈ catC4.storeIds) ∧
    find_min_cost_route catC4 listC4 (0, 0) (0, 0) = some 11 ∧
    calculate_shopping_cost catC4 [1, 2] listC4 = ((11 : ℚ) : WithTop ℚ) ∧
    (11 : ℚ) ≤ 11 := by
  have hmin : find_min_cost_route catC4 listC4 (0, 0) (0, 0) = some 11 := by
    norm_num [find_min_cost_route, availableOf, product_to_stores, indexEntry,
      globalFill, globalOptions, storeOption, fillGreedy, mkStore, catC4, listC4,
      List.insertionSort, List.orderedInsert, pairLE, priceLE]
  have hcost : calculate_shopping_cost catC4 [1, 2] listC4 = ((11 : ℚ) : WithTop ℚ) := by
    norm_num [calculate_shopping_cost, can_fulfill_shopping_list, deductAtStore,
      routeCostAux, productFill, fillGreedy, routeOptions, storeOption, mkStore,
      catC4, listC4, effInv, List.insertionSort, List.orderedInsert, priceLE]
  exact ⟨by decide, by decide, by decide, hmin, hcost,
    global_min_cost_lower_bound catC4 listC4 (0, 0) (0, 0) [1, 2] 11 11
      (by decide) (by decide) (by decide) hmin hcost⟩

/-! ### C2: the skyline monitor -/

lemma update_skyline_of_not_dominated (skyline : List ShoppingRoute) (route : ShoppingRoute)
    (h : ∀ e ∈ skyline, conventionally_dominates e route = false ∧ e ≠ route) :
    update_skyline skyline route =
      (true, (skyline.filter (fun e => !(conventionally_dominates route e))) ++ [route]) := by
  unfold update_skyline
  have hany : skyline.any (fun e => conventionally_dominates e route || e == route) = false := by
    rw [List.any_eq_false]
    intro e he
    obtain ⟨hd, hne⟩ := h e he
    simp [hd, hne]
  rw [hany]
  simp

lemma update_skyline_of_dominated (skyline : List ShoppingRoute) (route : ShoppingRoute)
    (h : ∃ e ∈ skyline, conventionally_dominates e route = true ∨ e = route) :
    update_skyline skyline route = (false, skyline) := by
  unfold update_skyline
  have hany : skyline.any (fun e => conventionally_dominates e route || e == route) = true := by
    rw [List.any_eq_true]
    obtain ⟨e, he, hd⟩ := h
    refine ⟨e, he, ?_⟩
    rcases hd with hd | hd <;> simp [hd]
  rw [hany]
  simp

/-- The function `update_skyline` preserves the pairwise non-domination invariant. -/
lemma update_skyline_preserves_nonDominating (skyline : List ShoppingRoute)
    (route : ShoppingRoute) (h : skyline.Pairwise nonDominating) :
    (update_skyline skyline route).2.Pairwise nonDominating := by
  by_cases hc : ∃ e ∈ skyline, conventionally_dominates e route = true ∨ e = route
  · rw [update_skyline_of_dominated skyline route hc]
    exact h
  · push_neg at hc
    have hc' : ∀ e ∈ skyline, conventionally_dominates e route = false ∧ e ≠ route := by
      intro e he
      obtain ⟨hd, hne⟩ := hc e he
      exact ⟨Bool.eq_false_iff.mpr hd, hne⟩
    rw [update_skyline_of_not_dominated skyline route hc']
    rw [List.pairwise_append]
    refine ⟨h.sublist (List.filter_sublist skyline), List.pairwise_singleton _ _, ?_⟩
    intro a ha b hb
    rw [List.mem_singleton] at hb
    subst hb
    obtain ⟨haS, haF⟩ := List.mem_filter.mp ha
    constructor
    · exact (hc' a haS).1
    · simpa using haF

/-- C2: if the skyline is pairwise non-dominated then so is the result of
`update_skyline` on any candidate; a candidate dominated by or equal to an
existing entry is rejected (skyline unchanged, `false` returned), and
otherwise every dominated entry is evicted and the candidate appended
(`true` returned). -/
theorem update_skyline_spec (skyline : List ShoppingRoute) (route : ShoppingRoute)
    (h : skyline.Pairwise nonDominating) :
    (update_skyline skyline route).2.Pairwise nonDominating ∧
    ((∃ e ∈ skyline, conventionally_dominates e route = true ∨ e = route) →
      update_skyline skyline route = (false, skyline)) ∧
    ((∀ e ∈ skyline, conventionally_dominates e route = false ∧ e ≠ route) →
      update_skyline skyline route =
        (true, (skyline.filter (fun e => !(conventionally_dominates route e))) ++ [route])) :=
  ⟨update_skyline_preserves_nonDominating skyline route h,
    update_skyline_of_dominated skyline route,
    update_skyline_of_not_dominated skyline route⟩

/-- Witness skyline and candidate for C2:  the incumbent `([1], 1, 5)` and
the incomparable candidate `([2], 2, 3)`. -/
def skyC2 : List ShoppingRoute := [⟨[1], (1 : ℚ), (5 : ℚ)⟩]

/-- Candidate route used in the C2 witness. -/
def routeC2 : ShoppingRoute := ⟨[2], (2 : ℚ), (3 : ℚ)⟩

/-- Witness for C2 at a concrete skyline and candidate. -/
theorem update_skyline_spec_witness :
    skyC2.Pairwise nonDominating ∧
    ((update_skyline skyC2 routeC2).2.Pairwise nonDominating ∧
      ((∃ e ∈ skyC2, conventionally_dominates e routeC2 = true ∨ e = routeC2) →
        update_skyline skyC2 routeC2 = (false, skyC2)) ∧
      ((∀ e ∈ skyC2, conventionally_dominates e routeC2 = false ∧ e ≠ routeC2) →
        update_skyline skyC2 routeC2 =
          (true, (skyC2.filter (fun e => !(conventionally_dominates routeC2 e))) ++ [routeC2]))) := by
  constructor
  · simp [skyC2, List.pairwise_singleton]
  · exact update_skyline_spec skyC2 routeC2 (by simp [skyC2, List.pairwise_singleton])

/-! ### Route expanders (`generate_next_routes`, `generate_next_routes_shuffle`) -/

/-- Travel-matrix lookup lifted to `WithTop ℚ` (`unwrap_or(INFINITY)`). -/
def travelT (B : BSLPSD) (a b : StoreId) : WithTop ℚ :=
  (B.travel a b).elim ⊤ (fun q => ((q : ℚ) : WithTop ℚ))

/-- The detour used by `MinDetour`/`NextMinDetour`: travel-matrix entry from
`from?` (or `0.0` when seeding an empty route). -/
def detourFrom (B : BSLPSD) (fr : Option StoreId) (s : StoreId) : WithTop ℚ :=
  match fr with
  | some f => travelT B f s
  | none => 0

/-- One step of `find_min_detour_store`'s scan over the store map. -/
def minDetourStep (B : BSLPSD) (fr : Option StoreId) (visited : List StoreId)
    (acc : WithTop ℚ × Option StoreId) (s : StoreId) : WithTop ℚ × Option StoreId :=
  if s ∈ visited then acc
  else if detourFrom B fr s < acc.1 then (detourFrom B fr s, some s) else acc

/-- Embeds `find_min_detour_store` (bsl_psd.rs lines 495–526). -/
def find_min_detour_store (B : BSLPSD) (fr : Option StoreId)
    (visited : List StoreId) : Option StoreId :=
  (B.storeIds.foldl (minDetourStep B fr visited) ((⊤ : WithTop ℚ), none)).2

/-- One step of `find_next_min_detour_store`'s scan. -/
def nextMinDetourStep (B : BSLPSD) (fr : Option StoreId) (visited : List StoreId)
    (currentMin : StoreId) (currentDetour : WithTop ℚ)
    (acc : WithTop ℚ × Option StoreId) (s : StoreId) : WithTop ℚ × Option StoreId :=
  if s ∈ visited ∨ s = currentMin then acc
  else if currentDetour < detourFrom B fr s ∧ detourFrom B fr s < acc.1 then
    (detourFrom B fr s, some s)
  else acc

/-- Embeds `find_next_min_detour_store` (bsl_psd.rs lines 530–573). -/
def find_next_min_detour_store (B : BSLPSD) (fr : Option StoreId)
    (visited : List StoreId) (currentMin : StoreId) : Option StoreId :=
  (B.storeIds.foldl
    (nextMinDetourStep B fr visited currentMin (detourFrom B fr currentMin))
    ((⊤ : WithTop ℚ), none)).2

/-- Embeds `f64` subtraction of a finite value, on the `WithTop` model
(`∞ − finite = ∞`). -/
def subF (x : WithTop ℚ) (b : ℚ) : WithTop ℚ :=
  WithTop.map (fun a => a - b) x

/-- Embeds `generate_next_routes` (bsl_psd.rs lines 575–659), Mode A: append the
minimum-detour store (θs) and swap the last store for the next-larger
detour (θp).  Neither successor is filtered for duplicates or infinite
times in the source. -/
def generate_next_routes (B : BSLPSD) (route : RouteCandidate) : List RouteCandidate :=
  let case1 : List RouteCandidate :=
    match route.stores.getLast? with
    | some last =>
      match find_min_detour_store B (some last) route.stores with
      | some m => [⟨route.stores ++ [m], route.shopping_time + travelT B last m⟩]
      | none => []
    | none =>
      match find_min_detour_store B none route.stores with
      | some m => [⟨[m], 0⟩]
      | none => []
  let case2 : List RouteCandidate :=
    match route.stores.getLast? with
    | some last =>
      let visited2 := route.stores.filter (fun s => s != last)
      match route.stores.get? (route.stores.length - 2) with
      | some second_last =>
        match find_next_min_detour_store B (some second_last) visited2 last with
        | some r =>
          let oldD : ℚ := (B.travel second_last last).getD 0
          [⟨route.stores.dropLast ++ [r],
            subF route.shopping_time oldD + travelT B second_last r⟩]
        | none => []
      | none => []
    | none => []
  case1 ++ case2

/-- The first-occurrence deduplication loop used by `find_shortest_path`
and the duplicate check of `generate_next_routes_shuffle`. -/
def uniqueAux : List StoreId → List StoreId → List StoreId
  | _, [] => []
  | seen, s :: rest =>
    if s ∈ seen then uniqueAux seen rest else s :: uniqueAux (s :: seen) rest

/-- Deduplicate keeping first occurrences. -/
def uniqueFirst (l : List StoreId) : List StoreId := uniqueAux [] l

/-- All ways to pick one element of a list together with the rest, in the
order `generate_permutations` enumerates them. -/
def pickEach : List StoreId → List (StoreId × List StoreId)
  | [] => []
  | x :: xs => (x, xs) :: (pickEach xs).map (fun pr => (pr.1, x :: pr.2))

/-- Fuelled core of `generate_permutations` (the source recurses on a list
that shrinks by one element; the fuel is its length). -/
def genPermsAux : ℕ → List StoreId → List (List StoreId)
  | _, [] => [[]]
  | 0, _ :: _ => []
  | n + 1, l =>
    (pickEach l).flatMap (fun pr => (genPermsAux n pr.2).map (fun p => pr.1 :: p))

/-- Embeds `generate_permutations` (bsl_psd.rs lines 705–723). -/
def generate_permutations (l : List StoreId) : List (List StoreId) :=
  genPermsAux l.length l

/-- Embeds `calculate_total_time` (bsl_psd.rs lines 725–759): shopper→first,
travel-matrix legs with Euclidean fallback, last→customer. -/
def calculate_total_time (B : BSLPSD) (path : List StoreId) (S C : Loc) : WithTop ℚ :=
  match path with
  | [] => ((B.dist S C : ℚ) : WithTop ℚ)
  | first :: rest =>
    let legs : List (WithTop ℚ) :=
      ((first :: rest).zip rest).map (fun pr =>
        match B.travel pr.1 pr.2 with
        | some t => ((t : ℚ) : WithTop ℚ)
        | none => ((B.dist (B.store pr.1).location (B.store pr.2).location : ℚ) : WithTop ℚ))
    ((B.dist S (B.store first).location : ℚ) : WithTop ℚ) + legs.sum +
      ((B.dist (B.store ((first :: rest).getLastD first)).location C : ℚ) : WithTop ℚ)

/-- Embeds `find_shortest_path` (bsl_psd.rs lines 663–703): deduplicate, then take
the strictly best permutation (empty when every permutation times out at
`+∞`, which cannot happen in this model but mirrors the source). -/
def find_shortest_path (B : BSLPSD) (stores : List StoreId) (S C : Loc) : List StoreId :=
  if stores.isEmpty then []
  else if stores.length = 1 then stores
  else
    ((generate_permutations (uniqueFirst stores)).foldl
      (fun acc perm =>
        if calculate_total_time B perm S C < acc.1 then
          (calculate_total_time B perm S C, perm)
        else acc)
      ((⊤ : WithTop ℚ), ([] : List StoreId))).2

/-- Embeds `generate_next_routes_shuffle` (bsl_psd.rs lines 763–907), Mode B:
same candidate generation as Mode A but each successor's store set is
re-ordered by brute-force shortest path; successors with infinite
shopping time are discarded, and a duplicate-carrying input is first
repaired and returned alone. -/
def generate_next_routes_shuffle (B : BSLPSD) (route : RouteCandidate) (S C : Loc) :
    List RouteCandidate :=
  if ¬ route.stores.Nodup then
    let optimized := find_shortest_path B (uniqueFirst route.stores) S C
    let t := calculate_total_time B optimized S C
    if t ≠ ⊤ then [⟨optimized, t⟩] else []
  else
    let case1 : List RouteCandidate :=
      match route.stores.getLast? with
      | some last =>
        match find_min_detour_store B (some last) route.stores with
        | some m =>
          if m ∉ route.stores then
            let optimized := find_shortest_path B (route.stores ++ [m]) S C
            let t := calculate_total_time B optimized S C
            if t ≠ ⊤ then [⟨optimized, t⟩] else []
          else []
        | none => []
      | none =>
        match find_min_detour_store B none route.stores with
        | some m =>
          let t := calculate_total_time B [m] S C
          if t ≠ ⊤ then [⟨[m], t⟩] else []
        | none => []
    let case2 : List RouteCandidate :=
      match route.stores.getLast? with
      | some last =>
        let visited2 := route.stores.filter (fun s => s != last)
        match route.stores.get? (route.stores.length - 2) with
        | some second_last =>
          match find_next_min_detour_store B (some second_last) visited2 last with
          | some r =>
            if r ∉ visited2 then
              let optimized := find_shortest_path B (route.stores.dropLast ++ [r]) S C
              let t := calculate_total_time B optimized S C
              if t ≠ ⊤ then [⟨optimized, t⟩] else []
            else []
          | none => []
        | none => []
      | none => []
    case1 ++ case2

lemma minDetour_fold_spec (B : BSLPSD) (fr : Option StoreId) (visited : List StoreId) :
    ∀ (ids : List StoreId) (acc : WithTop ℚ × Option StoreId),
      (∀ m, acc.2 = some m → m ∉ visited ∧ acc.1 ≠ ⊤ ∧ acc.1 = detourFrom B fr m) →
      ∀ m, (ids.foldl (minDetourStep B fr visited) acc).2 = some m →
        m ∉ visited ∧ (ids.foldl (minDetourStep B fr visited) acc).1 ≠ ⊤ ∧
        (ids.foldl (minDetourStep B fr visited) acc).1 = detourFrom B fr m := by
  intro ids
  induction ids with
  | nil =>
    intro acc hacc
    simpa using hacc
  | cons s ids ih =>
    intro acc hacc
    simp only [List.foldl_cons]
    apply ih
    intro m hm
    unfold minDetourStep at hm ⊢
    by_cases hv : s ∈ visited
    · simp only [hv, if_true] at hm ⊢
      exact hacc m hm
    · simp only [hv, if_false] at hm ⊢
      by_cases hlt : detourFrom B fr s < acc.1
      · simp only [hlt, if_true] at hm ⊢
        have hms : m = s := by simpa using hm.symm
        subst hms
        exact ⟨hv, (lt_of_lt_of_le hlt le_top).ne, rfl⟩
      · simp only [hlt, if_false] at hm ⊢
        exact hacc m hm

lemma find_min_detour_store_spec (B : BSLPSD) (fr : Option StoreId) (visited : List StoreId)
    (m : StoreId) (h : find_min_detour_store B fr visited = some m) :
    m ∉ visited ∧ detourFrom B fr m ≠ ⊤ := by
  have hs := minDetour_fold_spec B fr visited B.storeIds ((⊤ : WithTop ℚ), none)
    (by intro m hm; exact absurd hm (by simp)) m h
  exact ⟨hs.1, hs.2.2 ▸ hs.2.1⟩

lemma nextMinDetour_fold_spec (B : BSLPSD) (fr : Option StoreId) (visited : List StoreId)
    (currentMin : StoreId) (cd : WithTop ℚ) :
    ∀ (ids : List StoreId) (acc : WithTop ℚ × Option StoreId),
      (∀ m, acc.2 = some m →
        m ∉ visited ∧ m ≠ currentMin ∧ acc.1 ≠ ⊤ ∧ acc.1 = detourFrom B fr m) →
      ∀ m, (ids.foldl (nextMinDetourStep B fr visited currentMin cd) acc).2 = some m →
        m ∉ visited ∧ m ≠ currentMin ∧
        (ids.foldl (nextMinDetourStep B fr visited currentMin cd) acc).1 ≠ ⊤ ∧
        (ids.foldl (nextMinDetourStep B fr visited currentMin cd) acc).1 =
          detourFrom B fr m := by
  intro ids
  induction ids with
  | nil =>
    intro acc hacc
    simpa using hacc
  | cons s ids ih =>
    intro acc hacc
    simp only [List.foldl_cons]
    apply ih
    intro m hm
    unfold nextMinDetourStep at hm ⊢
    by_cases hv : s ∈ visited ∨ s = currentMin
    · simp only [hv, if_true] at hm ⊢
      exact hacc m hm
    · simp only [hv, if_false] at hm ⊢
      push_neg at hv
      by_cases hlt : cd < detourFrom B fr s ∧ detourFrom B fr s < acc.1
      · simp only [hlt, if_true] at hm ⊢
        have hms : m = s := by simpa using hm.symm
        subst hms
        exact ⟨hv.1, hv.2, (lt_of_lt_of_le hlt.2 le_top).ne, rfl⟩
      · simp only [hlt, if_false] at hm ⊢
        exact hacc m hm

lemma find_next_min_detour_store_spec (B : BSLPSD) (fr : Option StoreId)
    (visited : List StoreId) (currentMin : StoreId) (r : StoreId)
    (h : find_next_min_detour_store B fr visited currentMin = some r) :
    r ∉ visited ∧ r ≠ currentMin ∧ detourFrom B fr r ≠ ⊤ := by
  have hs := nextMinDetour_fold_spec B fr visited currentMin
    (detourFrom B fr currentMin) B.storeIds ((⊤ : WithTop ℚ), none)
    (by intro m hm; exact absurd hm (by simp)) r h
  exact ⟨hs.1, hs.2.1, hs.2.2.2 ▸ hs.2.2.1⟩

lemma subF_ne_top {x : WithTop ℚ} (hx : x ≠ ⊤) (b : ℚ) : subF x b ≠ ⊤ := by
  rcases x with _ | a
  · exact absurd rfl hx
  · simp [subF, WithTop.map]

lemma uniqueAux_nodup : ∀ (l seen : List StoreId),
    (uniqueAux seen l).Nodup ∧ ∀ x ∈ uniqueAux seen l, x ∉ seen
  | [], seen => ⟨List.nodup_nil, by simp [uniqueAux]⟩
  | s :: rest, seen => by
    unfold uniqueAux
    by_cases hs : s ∈ seen
    · simp only [hs, if_true]
      exact uniqueAux_nodup rest seen
    · simp only [hs, if_false]
      obtain ⟨hnd, hmem⟩ := uniqueAux_nodup rest (s :: seen)
      refine ⟨List.nodup_cons.mpr ⟨?_, hnd⟩, ?_⟩
      · intro hcon
        exact hmem s hcon (List.mem_cons_self s seen)
      · intro x hx
        rcases List.mem_cons.mp hx with h | h
        · exact h ▸ hs
        · exact fun hseen => hmem x h (List.mem_cons_of_mem s hseen)

lemma uniqueFirst_nodup (l : List StoreId) : (uniqueFirst l).Nodup :=
  (uniqueAux_nodup l []).1

lemma pickEach_perm : ∀ (l : List StoreId), ∀ pr ∈ pickEach l, (pr.1 :: pr.2).Perm l
  | [], pr, h => absurd h (List.not_mem_nil pr)
  | x :: xs, pr, h => by
    unfold pickEach at h
    rcases List.mem_cons.mp h with h | h
    · subst h
      exact List.Perm.refl _
    · obtain ⟨pr', hpr', heq⟩ := List.mem_map.mp h
      subst heq
      have hp' := pickEach_perm xs pr' hpr'
      exact (List.Perm.swap x pr'.1 pr'.2).trans (hp'.cons x)

lemma genPermsAux_perm : ∀ (n : ℕ) (l : List StoreId), l.length ≤ n →
    ∀ p ∈ genPermsAux n l, p.Perm l := by
  intro n
  induction n with
  | zero =>
    intro l hl p hp
    cases l with
    | nil =>
      simp only [genPermsAux, List.mem_singleton] at hp
      subst hp
      exact List.Perm.refl _
    | cons x xs => simp at hl
  | succ n ih =>
    intro l hl p hp
    cases l with
    | nil =>
      simp only [genPermsAux, List.mem_singleton] at hp
      subst hp
      exact List.Perm.refl _
    | cons x xs =>
      simp only [genPermsAux, List.mem_flatMap] at hp
      obtain ⟨pr, hpr, hmem⟩ := hp
      obtain ⟨p', hp', heq⟩ := List.mem_map.mp hmem
      subst heq
      have hperm := pickEach_perm (x :: xs) pr hpr
      have hlen : pr.2.length ≤ n := by
        have := hperm.length_eq
        simp only [List.length_cons] at this hl
        omega
      exact ((ih pr.2 hlen p' hp').cons pr.1).trans hperm

lemma generate_permutations_perm (l : List StoreId) :
    ∀ p ∈ generate_permutations l, p.Perm l :=
  genPermsAux_perm l.length l le_rfl

lemma foldl_best_mem : ∀ (perms : List (List StoreId)) (acc : WithTop ℚ × List StoreId)
    (f : List StoreId → WithTop ℚ),
    (perms.foldl (fun acc perm => if f perm < acc.1 then (f perm, perm) else acc) acc).2 = acc.2 ∨
    (perms.foldl (fun acc perm => if f perm < acc.1 then (f perm, perm) else acc) acc).2 ∈ perms
  | [], acc, f => Or.inl rfl
  | p :: ps, acc, f => by
    simp only [List.foldl_cons]
    by_cases h : f p < acc.1
    · simp only [h, if_true]
      rcases foldl_best_mem ps (f p, p) f with h' | h'
      · exact Or.inr (h' ▸ List.mem_cons_self p ps)
      · exact Or.inr (List.mem_cons_of_mem p h')
    · simp only [h, if_false]
      rcases foldl_best_mem ps acc f with h' | h'
      · exact Or.inl h'
      · exact Or.inr (List.mem_cons_of_mem p h')

lemma find_shortest_path_nodup (B : BSLPSD) (stores : List StoreId) (S C : Loc) :
    (find_shortest_path B stores S C).Nodup := by
  unfold find_shortest_path
  by_cases h0 : stores.isEmpty
  · simp [h0]
  · simp only [h0, if_false]
    by_cases h1 : stores.length = 1
    · obtain ⟨x, hx⟩ := List.length_eq_one.mp h1
      simp [h1, hx]
    · simp only [h1, if_false]
      rcases foldl_best_mem (generate_permutations (uniqueFirst stores))
        ((⊤ : WithTop ℚ), ([] : List StoreId)) (fun perm => calculate_total_time B perm S C)
        with h | h
      · rw [h]
        exact List.nodup_nil
      · exact ((generate_permutations_perm (uniqueFirst stores) _ h).nodup_iff).mpr
          (uniqueFirst_nodup stores)

lemma nodup_concat {l : List StoreId} {m : StoreId} (h : l.Nodup) (hm : m ∉ l) :
    (l ++ [m]).Nodup := by
  rw [List.nodup_append]
  exact ⟨h, List.nodup_singleton m,
    fun a ha hb => hm ((List.mem_singleton.mp hb) ▸ ha)⟩

lemma generate_next_routes_spec (B : BSLPSD) (rc : RouteCandidate)
    (hnd : rc.stores.Nodup) (hft : rc.shopping_time ≠ ⊤) :
    ∀ r ∈ generate_next_routes B rc, r.stores.Nodup ∧ r.shopping_time ≠ ⊤ := by
  intro r hr
  simp only [generate_next_routes] at hr
  rw [List.mem_append] at hr
  rcases hr with hr | hr
  · split at hr
    · rename_i last hlast
      split at hr
      · rename_i m hm
        simp only [List.mem_singleton] at hr
        subst hr
        obtain ⟨hm1, hm2⟩ := find_min_detour_store_spec B (some last) rc.stores m hm
        exact ⟨nodup_concat hnd hm1, WithTop.add_ne_top.mpr ⟨hft, hm2⟩⟩
      · exact absurd hr (List.not_mem_nil r)
    · split at hr
      · rename_i m hm
        simp only [List.mem_singleton] at hr
        subst hr
        refine ⟨List.nodup_singleton m, ?_⟩
        simp
      · exact absurd hr (List.not_mem_nil r)
  · split at hr
    · rename_i last hlast
      split at hr
      · rename_i second_last hsl
        split at hr
        · rename_i r0 hr0
          simp only [List.mem_singleton] at hr
          subst hr
          obtain ⟨hv2, hne, hdet⟩ := find_next_min_detour_store_spec B (some second_last)
            (rc.stores.filter (fun s => s != last)) last r0 hr0
          have hr0s : r0 ∉ rc.stores := by
            intro hin
            exact hv2 (List.mem_filter.mpr ⟨hin, by simpa using hne⟩)
          refine ⟨nodup_concat (hnd.sublist (List.dropLast_sublist _))
            (fun h => hr0s ((List.dropLast_sublist _).subset h)), ?_⟩
          exact WithTop.add_ne_top.mpr ⟨subF_ne_top hft _, hdet⟩
        · exact absurd hr (List.not_mem_nil r)
      · exact absurd hr (List.not_mem_nil r)
    · exact absurd hr (List.not_mem_nil r)

lemma generate_next_routes_shuffle_spec (B : BSLPSD) (rc : RouteCandidate) (S C : Loc) :
    ∀ r ∈ generate_next_routes_shuffle B rc S C, r.stores.Nodup ∧ r.shopping_time ≠ ⊤ := by
  intro r hr
  simp only [generate_next_routes_shuffle] at hr
  split at hr
  · split at hr
    · rename_i ht
      simp only [List.mem_singleton] at hr
      subst hr
      exact ⟨find_shortest_path_nodup B _ S C, ht⟩
    · exact absurd hr (List.not_mem_nil r)
  · rw [List.mem_append] at hr
    rcases hr with hr | hr
    · split at hr
      · rename_i last hlast
        split at hr
        · rename_i m hm
          split at hr
          · split at hr
            · rename_i ht
              simp only [List.mem_singleton] at hr
              subst hr
              exact ⟨find_shortest_path_nodup B _ S C, ht⟩
            · exact absurd hr (List.not_mem_nil r)
          · exact absurd hr (List.not_mem_nil r)
        · exact absurd hr (List.not_mem_nil r)
      · split at hr
        · rename_i m hm
          split at hr
          · rename_i ht
            simp only [List.mem_singleton] at hr
            subst hr
            exact ⟨List.nodup_singleton m, ht⟩
          · exact absurd hr (List.not_mem_nil r)
        · exact absurd hr (List.not_mem_nil r)
    · split at hr
      · rename_i last hlast
        split at hr
        · rename_i second_last hsl
          split at hr
          · rename_i r0 hr0
            split at hr
            · split at hr
              · rename_i ht
                simp only [List.mem_singleton] at hr
                subst hr
                exact ⟨find_shortest_path_nodup B _ S C, ht⟩
              · exact absurd hr (List.not_mem_nil r)
            · exact absurd hr (List.not_mem_nil r)
          · exact absurd hr (List.not_mem_nil r)
        · exact absurd hr (List.not_mem_nil r)
      · exact absurd hr (List.not_mem_nil r)

/-- C7, amended to inputs that themselves carry pairwise-distinct stores
and a finite shopping time: every successor produced by Mode A
(`generate_next_routes`) and Mode B (`generate_next_routes_shuffle`) has
pairwise-distinct stores and a finite shopping time. -/
theorem next_routes_nodup_finite (B : BSLPSD) (rc : RouteCandidate) (S C : Loc)
    (hnd : rc.stores.Nodup) (hft : rc.shopping_time ≠ ⊤) :
    (∀ r ∈ generate_next_routes B rc, r.stores.Nodup ∧ r.shopping_time ≠ ⊤) ∧
    (∀ r ∈ generate_next_routes_shuffle B rc S C,
      r.stores.Nodup ∧ r.shopping_time ≠ ⊤) :=
  ⟨generate_next_routes_spec B rc hnd hft,
    generate_next_routes_shuffle_spec B rc S C⟩

/-- Catalogue for the C7 counterexample: two stores, one travel edge 1→2. -/
def catC7 : BSLPSD where
  storeIds := [1, 2]
  store := fun s => mkStore s []
  travel := fun a b => if a = 1 ∧ b = 2 then some 1 else none
  dist := fun _ _ => 0

/-- C7 counterexample: Mode A applied to the duplicate-carrying candidate
`[1, 1]` appends the min-detour store and returns the successor
`[1, 1, 2]`, which still carries a duplicate store. -/
theorem next_routes_dup_counterexample :
    generate_next_routes catC7 ⟨[1, 1], (0 : WithTop ℚ)⟩ =
      [⟨[1, 1, 2], ((1 : ℚ) : WithTop ℚ)⟩] ∧
    ¬ ([1, 1, 2] : List StoreId).Nodup := by
  refine ⟨?_, by decide⟩
  norm_num [generate_next_routes, find_min_detour_store, find_next_min_detour_store,
    minDetourStep, nextMinDetourStep, detourFrom, travelT, catC7, subF]

/-- Witness for the amended C7 theorem at the singleton candidate `[1]`. -/
theorem next_routes_nodup_finite_witness :
    ([1] : List StoreId).Nodup ∧ ((0 : WithTop ℚ) ≠ ⊤) ∧
    ((∀ r ∈ generate_next_routes catC7 ⟨[1], 0⟩,
        r.stores.Nodup ∧ r.shopping_time ≠ ⊤) ∧
      (∀ r ∈ generate_next_routes_shuffle catC7 ⟨[1], 0⟩ (0, 0) (0, 0),
        r.stores.Nodup ∧ r.shopping_time ≠ ⊤)) :=
  ⟨by decide, by simp,
    next_routes_nodup_finite catC7 ⟨[1], 0⟩ (0, 0) (0, 0) (by decide) (by simp)⟩

/-! ### Time-optimal fulfilment search (`find_min_time_route_dijkstra`) -/

/-- Key comparison of `sort_remaining_items` (sort by product id). -/
def keyLE (a b : ProductId × ℕ) : Prop := a.1 ≤ b.1

instance : DecidableRel keyLE := fun a b => inferInstanceAs (Decidable (a.1 ≤ b.1))

instance : IsTotal (ProductId × ℕ) keyLE := ⟨fun a b => le_total a.1 b.1⟩

instance : IsTrans (ProductId × ℕ) keyLE := ⟨fun _ _ _ h h' => le_trans h h'⟩

/-- Embeds `sort_remaining_items` (bsl_psd.rs lines 1396–1400). -/
def sort_remaining_items (items : RemList) : RemList :=
  List.insertionSort keyLE items

/-- A Dijkstra node: `(current store, canonical residual demand)`. -/
abbrev DNode := StoreId × RemList

/-- Whether a store can contribute at least one still-needed unit (the
`any_product_purchased` / `any_new_purchases` flags). -/
def anyPurchase (st : Store) (items : RemList) : Bool :=
  items.any (fun e => 0 < min (effInv st e.1) e.2)

/-- The state threaded through the Dijkstra loop: priority queue, distance
and predecessor maps (association lists; the newest binding shadows), the
visited set, and the best terminal result so far. -/
structure DijState where
  queue : List (ℚ × DNode)
  dists : List (DNode × ℚ)
  preds : List (DNode × Option DNode)
  visited : List DNode
  bestTime : WithTop ℚ
  bestState : Option DNode

/-- Association-list lookup standing for `HashMap` indexing. -/
def lookupD {α : Type} (l : List (DNode × α)) (k : DNode) : Option α :=
  (l.find? (fun e => e.1 = k)).map (fun e => e.2)

/-- Embeds `candidate_stores`: stores carrying at least one listed product. -/
def candidateStores (B : BSLPSD) (L : ShoppingList) : List StoreId :=
  B.storeIds.filter (fun s => L.items.any (fun e => ((B.store s).products e.1).isSome))

/-- The initialisation loop of the Dijkstra: one start node per candidate
store that can make a first purchase. -/
def dijkstraInit (B : BSLPSD) (L : ShoppingList) (S : Loc) (cands : List StoreId) : DijState :=
  cands.foldl (fun st s =>
    if anyPurchase (B.store s) L.items then
      { st with
        dists := ((s, sort_remaining_items (deductAtStore (B.store s) L.items)),
          B.dist S (B.store s).location) :: st.dists
        preds := ((s, sort_remaining_items (deductAtStore (B.store s) L.items)),
          none) :: st.preds
        queue := (B.dist S (B.store s).location,
          (s, sort_remaining_items (deductAtStore (B.store s) L.items))) :: st.queue }
    else st)
    ⟨[], [], [], [], ⊤, none⟩

/-- Pop a minimum-distance entry from the queue (the `BinaryHeap` pop;
among equal distances the model takes the earliest). -/
def popMinQ (q : List (ℚ × DNode)) : Option ((ℚ × DNode) × List (ℚ × DNode)) :=
  match q with
  | [] => none
  | x :: xs =>
    let best := xs.foldl (fun acc e => if e.1 < acc.1 then e else acc) x
    some (best, q.erase best)

/-- The neighbour-relaxation loop of the Dijkstra: for every other
candidate store with a finite edge and a new purchase, relax. -/
def dijkstraRelax (B : BSLPSD) (cands : List StoreId) (cur : DNode) (d : ℚ)
    (st : DijState) : DijState :=
  cands.foldl (fun st next =>
    if next = cur.1 then st
    else
      match B.travel cur.1 next with
      | none => st
      | some w =>
        if anyPurchase (B.store next) cur.2 then
          if (match lookupD st.dists (next, sort_remaining_items (deductAtStore (B.store next) cur.2)) with
              | none => true
              | some old => decide (d + w < old)) then
            { st with
              dists := ((next, sort_remaining_items (deductAtStore (B.store next) cur.2)),
                d + w) :: st.dists
              preds := ((next, sort_remaining_items (deductAtStore (B.store next) cur.2)),
                some cur) :: st.preds
              queue := (d + w,
                (next, sort_remaining_items (deductAtStore (B.store next) cur.2))) :: st.queue }
          else st
        else st) st

/-- The main Dijkstra loop (fuelled; the source loop runs until the queue
empties, which happens after finitely many pops). -/
def dijkstraLoop (B : BSLPSD) (C : Loc) (cands : List StoreId) :
    ℕ → DijState → DijState
  | 0, st => st
  | fuel + 1, st =>
    match popMinQ st.queue with
    | none => st
    | some ((d, node), rest) =>
      if node ∈ st.visited then
        dijkstraLoop B C cands fuel { st with queue := rest }
      else
        let st1 : DijState := { st with queue := rest, visited := node :: st.visited }
        if node.2.all (fun e => e.2 = 0) then
          let fd : WithTop ℚ := ((d + B.dist (B.store node.1).location C : ℚ) : WithTop ℚ)
          dijkstraLoop B C cands fuel
            (if fd < st1.bestTime then
              { st1 with bestTime := fd, bestState := some node }
            else st1)
        else
          dijkstraLoop B C cands fuel (dijkstraRelax B cands node d st1)

/-- Path reconstruction by backtracking predecessors (fuelled; the chain
length is bounded by the number of relaxations). -/
def buildPath (preds : List (DNode × Option DNode)) : ℕ → DNode → List StoreId
  | 0, cur => [cur.1]
  | fuel + 1, cur =>
    match (lookupD preds cur).getD none with
    | some prev => buildPath preds fuel prev ++ [cur.1]
    | none => [cur.1]

/-- Embeds `find_min_time_route_dijkstra` (bsl_psd.rs lines 199–437). -/
def find_min_time_route_dijkstra (B : BSLPSD) (L : ShoppingList) (S C : Loc)
    (fuel : ℕ) : Option ShoppingRoute :=
  if (candidateStores B L).isEmpty then none
  else if ¬ (L.items.all (fun e =>
      e.2 ≤ ((candidateStores B L).map (fun s => effInv (B.store s) e.1)).sum)) then none
  else
    match (dijkstraLoop B C (candidateStores B L) fuel
        (dijkstraInit B L S (candidateStores B L))).bestState with
    | none => none
    | some bs =>
      some ⟨buildPath (dijkstraLoop B C (candidateStores B L) fuel
          (dijkstraInit B L S (candidateStores B L))).preds fuel bs,
        (dijkstraLoop B C (candidateStores B L) fuel
          (dijkstraInit B L S (candidateStores B L))).bestTime,
        calculate_shopping_cost B
          (buildPath (dijkstraLoop B C (candidateStores B L) fuel
            (dijkstraInit B L S (candidateStores B L))).preds fuel bs) L⟩

/-! ### The best-first loop and top-level solve (`solve_with_debug`) -/

/-- Embeds `satisfies_list_with_inventory` (bsl_psd.rs lines 460–491): aggregate
inventory over the route's stores per product, then compare. -/
def satisfies_list_with_inventory (B : BSLPSD) (route : List StoreId)
    (L : ShoppingList) : Bool :=
  L.items.all (fun e =>
    if route.any (fun s => ((B.store s).products e.1).isSome) then
      decide (e.2 ≤ (route.map (fun s => effInv (B.store s) e.1)).sum)
    else false)

/-- State of `solve_with_debug`'s best-first loop. -/
structure SolveState where
  queue : List RouteCandidate
  visited : List (List StoreId)
  skyline : List ShoppingRoute
  unchanged : ℤ

/-- Pop a minimum-time candidate (the `BinaryHeap` pop on
`RouteCandidate`s; among ties the model takes the earliest). -/
def popMinRC (q : List RouteCandidate) : Option (RouteCandidate × List RouteCandidate) :=
  match q with
  | [] => none
  | x :: xs =>
    let best := xs.foldl
      (fun acc e => if e.shopping_time < acc.shopping_time then e else acc) x
    some (best, q.erase best)

/-- Enqueue the successors not yet in the visited set, marking them. -/
def pushNewRoutes (visited : List (List StoreId)) (queue : List RouteCandidate)
    (next : List RouteCandidate) : List (List StoreId) × List RouteCandidate :=
  next.foldl (fun acc r =>
    if r.stores ∈ acc.1 then acc else (r.stores :: acc.1, acc.2 ++ [r]))
    (visited, queue)

/-- The best-first loop of `solve_with_debug` (bsl_psd.rs lines
1259–1326), fuelled.  Breaks (returning the current skyline) on the
stagnation threshold and on reaching the cost lower bound `scUB`. -/
def solveLoop (B : BSLPSD) (L : ShoppingList) (scUB : ℚ) (threshold : ℤ) :
    ℕ → SolveState → List ShoppingRoute
  | 0, st => st.skyline
  | fuel + 1, st =>
    match popMinRC st.queue with
    | none => st.skyline
    | some (rc, rest) =>
      if satisfies_list_with_inventory B rc.stores L then
        let res := update_skyline st.skyline
          ⟨rc.stores, rc.shopping_time, calculate_shopping_cost B rc.stores L⟩
        if res.2.length = st.skyline.length ∧ res.1 = false then
          if st.unchanged + 1 ≥ threshold then res.2
          else if calculate_shopping_cost B rc.stores L = ((scUB : ℚ) : WithTop ℚ) then res.2
          else
            solveLoop B L scUB threshold fuel
              ⟨(pushNewRoutes st.visited rest (generate_next_routes B rc)).2,
                (pushNewRoutes st.visited rest (generate_next_routes B rc)).1,
                res.2, st.unchanged + 1⟩
        else
          if calculate_shopping_cost B rc.stores L = ((scUB : ℚ) : WithTop ℚ) then res.2
          else
            solveLoop B L scUB threshold fuel
              ⟨(pushNewRoutes st.visited rest (generate_next_routes B rc)).2,
                (pushNewRoutes st.visited rest (generate_next_routes B rc)).1,
                res.2, 0⟩
      else
        solveLoop B L scUB threshold fuel
          ⟨(pushNewRoutes st.visited rest (generate_next_routes B rc)).2,
            (pushNewRoutes st.visited rest (generate_next_routes B rc)).1,
            st.skyline, st.unchanged⟩

/-- Comparison of the final `sort_by` on shopping time. -/
def timeLE (a b : ShoppingRoute) : Prop := a.shopping_time ≤ b.shopping_time

instance : DecidableRel timeLE :=
  fun a b => inferInstanceAs (Decidable (a.shopping_time ≤ b.shopping_time))

instance : IsTotal ShoppingRoute timeLE := ⟨fun x y => le_total x.shopping_time y.shopping_time⟩

instance : IsTrans ShoppingRoute timeLE := ⟨fun _ _ _ h h' => le_trans h h'⟩

/-- The final ascending-by-time sort of the skyline. -/
def sortSkyline (sky : List ShoppingRoute) : List ShoppingRoute :=
  List.insertionSort timeLE sky

/-- Embeds `solve_with_debug` (bsl_psd.rs lines 1201–1338): compute the cost
lower bound and the min-time seed route, run the best-first loop, sort. -/
def solve_with_debug (B : BSLPSD) (L : ShoppingList) (S C : Loc) (threshold : ℤ)
    (dfuel fuel : ℕ) : List ShoppingRoute :=
  match find_min_cost_route B L S C with
  | none => []
  | some scUB =>
    match find_min_time_route_dijkstra B L S C dfuel with
    | none => []
    | some mtr =>
      sortSkyline (solveLoop B L scUB threshold fuel
        ⟨[⟨mtr.stores, mtr.shopping_time⟩], [], [], 0⟩)

/-- The trait method `solve` (bsl_psd.rs lines 1406–1414):
`solve_with_debug` with threshold 10000. -/
def solve (B : BSLPSD) (L : ShoppingList) (S C : Loc) (dfuel fuel : ℕ) :
    List ShoppingRoute :=
  solve_with_debug B L S C 10000 dfuel fuel

/-! ### C5: the returned skyline is sorted by time, then cost -/

/-- The claimed output order: strictly increasing time, or equal time with
non-decreasing cost. -/
def skylineLex (a b : ShoppingRoute) : Prop :=
  a.shopping_time < b.shopping_time ∨
    (a.shopping_time = b.shopping_time ∧ a.shopping_cost ≤ b.shopping_cost)

lemma nonDominating_symm : ∀ {a b : ShoppingRoute}, nonDominating a b → nonDominating b a :=
  fun h => ⟨h.2, h.1⟩

lemma cost_eq_of_nonDominating {a b : ShoppingRoute} (h : nonDominating a b)
    (ht : a.shopping_time = b.shopping_time) :
    a.shopping_cost = b.shopping_cost := by
  by_contra hne
  rcases lt_or_gt_of_ne hne with hlt | hgt
  · have hdom : conventionally_dominates a b = true := by
      unfold conventionally_dominates
      simp [ht, hlt]
    rw [h.1] at hdom
    exact Bool.false_ne_true hdom
  · have hdom : conventionally_dominates b a = true := by
      unfold conventionally_dominates
      simp [ht.symm, hgt]
    rw [h.2] at hdom
    exact Bool.false_ne_true hdom

lemma solveLoop_pairwise (B : BSLPSD) (L : ShoppingList) (scUB : ℚ) (threshold : ℤ) :
    ∀ (fuel : ℕ) (st : SolveState), st.skyline.Pairwise nonDominating →
      (solveLoop B L scUB threshold fuel st).Pairwise nonDominating := by
  intro fuel
  induction fuel with
  | zero =>
    intro st h
    exact h
  | succ fuel ih =>
    intro st h
    simp only [solveLoop]
    split
    · exact h
    · rename_i rc rest hpop
      split
      · split
        · split
          · exact update_skyline_preserves_nonDominating st.skyline _ h
          · split
            · exact update_skyline_preserves_nonDominating st.skyline _ h
            · exact ih _ (update_skyline_preserves_nonDominating st.skyline _ h)
        · split
          · exact update_skyline_preserves_nonDominating st.skyline _ h
          · exact ih _ (update_skyline_preserves_nonDominating st.skyline _ h)
      · exact ih _ h

lemma sortSkyline_lex (sky : List ShoppingRoute) (h : sky.Pairwise nonDominating) :
    (sortSkyline sky).Pairwise skylineLex := by
  have hsorted : (sortSkyline sky).Pairwise timeLE :=
    List.sorted_insertionSort timeLE sky
  have hperm : (sortSkyline sky).Perm sky := List.perm_insertionSort timeLE sky
  have hnd : (sortSkyline sky).Pairwise nonDominating :=
    (hperm.pairwise_iff (fun hab => nonDominating_symm hab)).2 h
  refine (hsorted.and hnd).imp ?_
  intro a b hab
  rcases lt_or_eq_of_le hab.1 with hlt | heq
  · exact Or.inl hlt
  · exact Or.inr ⟨heq, le_of_eq (cost_eq_of_nonDominating hab.2 heq)⟩

/-- C5: the skyline returned by `solve_with_debug` (hence by the top-level
`solve`) is sorted ascending by shopping time, and among equal times
ascending by shopping cost. -/
theorem solve_skyline_sorted (B : BSLPSD) (L : ShoppingList) (S C : Loc)
    (threshold : ℤ) (dfuel fuel : ℕ) :
    (solve_with_debug B L S C threshold dfuel fuel).Pairwise skylineLex ∧
    (solve B L S C dfuel fuel).Pairwise skylineLex := by
  have hgen : ∀ th : ℤ, (solve_with_debug B L S C th dfuel fuel).Pairwise skylineLex := by
    intro th
    unfold solve_with_debug
    split
    · exact List.Pairwise.nil
    · split
      · exact List.Pairwise.nil
      · exact sortSkyline_lex _
          (solveLoop_pairwise B L _ th fuel _ List.Pairwise.nil)
  exact ⟨hgen threshold, hgen 10000⟩

/-! ### C3 and C6: empty and infeasible shopping lists -/

/-- C3, amended: for an empty shopping list the top-level solve returns
the empty skyline (the Dijkstra finds no candidate stores and the solver
aborts), not a singleton direct-delivery route. -/
theorem solve_empty_list (B : BSLPSD) (L : ShoppingList) (S C : Loc) (threshold : ℤ)
    (dfuel fuel : ℕ) (hL : L.items = []) :
    solve_with_debug B L S C threshold dfuel fuel = [] := by
  have hcand : candidateStores B L = [] := by
    unfold candidateStores
    simp [hL]
  have hdij : find_min_time_route_dijkstra B L S C dfuel = none := by
    unfold find_min_time_route_dijkstra
    rw [hcand]
    simp
  unfold solve_with_debug
  split
  · rfl
  · rw [hdij]

/-- Catalogue for the C3 counterexample: no stores, the shopper at (0,0),
the customer at (3,4), Euclidean distance 5 between them (the abstract
metric is fixed to that value). -/
def catC3 : BSLPSD where
  storeIds := []
  store := fun s => mkStore s []
  travel := fun _ _ => none
  dist := fun _ _ => 5

/-- C3 counterexample (spec Scenario 1): with no stores and the empty
list the solver returns the empty skyline, not
`[{stores: [], time: 5.0, cost: 0.0}]`. -/
theorem solve_empty_scenario_counterexample :
    solve_with_debug catC3 ⟨[], 0⟩ (0, 0) (3, 4) 10000 100 100 = [] ∧
    ([] : List ShoppingRoute) ≠
      [⟨[], ((5 : ℚ) : WithTop ℚ), ((0 : ℚ) : WithTop ℚ)⟩] := by
  constructor
  · rfl
  · simp

/-- Witness for the amended C3 theorem at concrete arguments. -/
theorem solve_empty_list_witness :
    (⟨[], 0⟩ : ShoppingList).items = [] ∧
    solve_with_debug catC3 ⟨[], 0⟩ (0, 0) (3, 4) 7 3 5 = [] :=
  ⟨rfl, solve_empty_list catC3 ⟨[], 0⟩ (0, 0) (3, 4) 7 3 5 rfl⟩

/-- C6: when some listed product's aggregate effective inventory over the
whole catalogue falls short of the required quantity, the top-level solve
returns the empty skyline (and, being a total function, raises no
error). -/
theorem solve_insufficient_inventory (B : BSLPSD) (L : ShoppingList) (S C : Loc)
    (threshold : ℤ) (dfuel fuel : ℕ)
    (h : ∃ e ∈ L.items, (B.storeIds.map (fun s => effInv (B.store s) e.1)).sum < e.2) :
    solve_with_debug B L S C threshold dfuel fuel = [] := by
  have hmin : find_min_cost_route B L S C = none := by
    unfold find_min_cost_route
    obtain ⟨e, he, hlt⟩ := h
    have hav : availableOf B e.1 < e.2 := by
      rw [availableOf_eq]
      exact hlt
    have hall : L.items.all (fun e => e.2 ≤ availableOf B e.1) = false := by
      rw [List.all_eq_false]
      exact ⟨e, he, by simp [Nat.not_le.mpr hav]⟩
    simp [hall]
  unfold solve_with_debug
  rw [hmin]

/-- Shopping list for the C6 witness: 100 units of product 1 against an
aggregate inventory of 6. -/
def listC6 : ShoppingList := ⟨[(1, 100)], 0⟩

/-- Witness for the C6 theorem at a concrete catalogue and list. -/
theorem solve_insufficient_inventory_witness :
    (∃ e ∈ listC6.items,
      (catC4.storeIds.map (fun s => effInv (catC4.store s) e.1)).sum < e.2) ∧
    solve_with_debug catC4 listC6 (0, 0) (0, 0) 10000 50 50 = [] :=
  ⟨by decide,
    solve_insufficient_inventory catC4 listC6 (0, 0) (0, 0) 10000 50 50 (by decide)⟩
